import Mathlib

/-!
Verification of the marci-db core: a shallow embedding in Lean 4 of the
document codec (`marci_encoder.rs`, `marci_decoder.rs`), the update engine
(`update_data.rs`), the selection compiler (`marci_select.rs`) and the
storage layer (`marci_db.rs`).

Modelling conventions:
* machine bytes are `Nat` values below 256; buffers are `List Nat`;
* `u32`/`u16` header writes keep the source's wrap-around (`% 2 ^ 32`);
* signed 64-bit integers are stored via two's complement on `Int`;
* JSON strings are modelled by their UTF-8 byte sequences, so the
  `from_utf8` validation of the decoder is the identity on them;
* serde_json numbers are modelled by `Int` (the integer fragment); the
  IEEE-754 byte images of `Float`/`Double` payloads are produced by an
  explicit bit-level encoder below;
* `serde_json::Map` objects are association lists looked up by first key;
* the canopydb collaborator (ordered trees, write transactions) is
  modelled from the spec as sorted association lists over byte-string
  keys, with abort-by-early-return leaving the tree state untouched.
-/

namespace Marci

/-! ## Byte-level utilities -/

/-- Big-endian bytes of `v`, `w` bytes wide (`to_be_bytes` after masking). -/
def natToBeBytes : Nat → Nat → List Nat
  | 0, _ => []
  | w + 1, v => natToBeBytes w (v / 256) ++ [v % 256]

/-- Big-endian read: `u32::from_be_bytes` style folding. -/
def beBytesToNat (l : List Nat) : Nat :=
  l.foldl (fun acc b => acc * 256 + b) 0

/-- `data[i]`, 0 outside the buffer (all verified reads are in range). -/
def readByte (data : List Nat) (i : Nat) : Nat := data.getD i 0

/-- The sub-slice `data[pos .. pos+len]`. -/
def readSlice (data : List Nat) (pos len : Nat) : List Nat :=
  (data.drop pos).take len

/-- `data[pos .. pos+src.len()].copy_from_slice(src)` (in-range in all uses). -/
def writeSlice (data : List Nat) (pos : Nat) (src : List Nat) : List Nat :=
  data.take pos ++ src ++ data.drop (pos + src.length)

/-- `Vec::resize(n, 0)`: truncate or zero-extend to length `n`. -/
def listResize (data : List Nat) (n : Nat) : List Nat :=
  if n ≤ data.length then data.take n
  else data ++ List.replicate (n - data.length) 0

/-- Two's-complement image of a signed value in `w`-byte width
(`i64::to_be_bytes` for `w = 8`). -/
def intToBeBytes (w : Nat) (v : Int) : List Nat :=
  natToBeBytes w (v.emod (2 ^ (8 * w))).toNat

/-- Signed read-back from a `w`-byte two's-complement image. -/
def beBytesToInt (w : Nat) (l : List Nat) : Int :=
  let u : Int := (beBytesToNat l : Nat)
  if u < 2 ^ (8 * w - 1) then u else u - 2 ^ (8 * w)

/-! ## IEEE-754 bit images for the `Float`/`Double` payloads

The source stores `f32`/`f64` as big-endian IEEE-754 words.  Lean has no
float type in the logic, so the bit pattern of an integer-valued number is
computed explicitly (round to nearest, ties to even); every theorem below
stays inside the integer fragment, as licensed by the claims' "modulo
float precision" carve-outs. -/

/-- Position of the highest set bit: `Nat.log2`. -/
def msbIndex (n : Nat) : Nat := Nat.log2 n

/-- Round `v / 2^k` to nearest, ties to even. -/
def roundDiv (v k : Nat) : Nat :=
  let q := v / 2 ^ k
  let r := v % 2 ^ k
  if 2 * r > 2 ^ k ∨ (2 * r = 2 ^ k ∧ q % 2 = 1) then q + 1 else q

/-- IEEE-754 bit pattern (as a `Nat`) of the integer `v` for a format with
`mbits` mantissa bits and `ebits` exponent bits. -/
def ieeeBits (mbits ebits : Nat) (v : Int) : Nat :=
  let sign : Nat := if v < 0 then 1 else 0
  let mag : Nat := v.natAbs
  let bias : Nat := 2 ^ (ebits - 1) - 1
  let emax : Nat := 2 ^ ebits - 1
  if mag = 0 then sign * 2 ^ (mbits + ebits)
  else
    let e := msbIndex mag
    let mant := if e ≤ mbits then mag * 2 ^ (mbits - e) else roundDiv mag (e - mbits)
    -- rounding can carry into the next binade
    let carried := mant ≥ 2 ^ (mbits + 1)
    let mant := if carried then mant / 2 else mant
    let e := if carried then e + 1 else e
    if e + bias ≥ emax then
      -- overflow to infinity
      sign * 2 ^ (mbits + ebits) + (emax * 2 ^ mbits)
    else
      sign * 2 ^ (mbits + ebits) + ((e + bias) * 2 ^ mbits) + (mant - 2 ^ mbits)

/-- `(v as f32).to_be_bytes()` for integer `v`. -/
def f32BeBytes (v : Int) : List Nat := natToBeBytes 4 (ieeeBits 23 8 v)

/-- `(v as f64).to_be_bytes()` for integer `v`. -/
def f64BeBytes (v : Int) : List Nat := natToBeBytes 8 (ieeeBits 52 11 v)

/-- Truncated integer value of an IEEE bit pattern (decode direction; only
the structure matters, no theorem depends on float-valued payloads). -/
def ieeeVal (mbits ebits : Nat) (bits : Nat) : Int :=
  let bias : Nat := 2 ^ (ebits - 1) - 1
  let sign := bits / 2 ^ (mbits + ebits)
  let e := bits / 2 ^ mbits % 2 ^ ebits
  let frac := bits % 2 ^ mbits
  if e = 0 then 0
  else
    let mag : Nat :=
      if e ≥ bias then (2 ^ mbits + frac) * 2 ^ (e - bias) / 2 ^ mbits
      else 0
    if sign = 1 then -(mag : Int) else (mag : Int)

/-! ## The JSON value model (`serde_json::Value`) -/

/-- JSON values.  Strings carry their UTF-8 bytes; numbers are the integer
fragment of `serde_json::Number`. -/
inductive Json where
  | null : Json
  | bool (b : Bool) : Json
  | num (n : Int) : Json
  | str (s : List Nat) : Json
  | arr (items : List Json) : Json
  | obj (entries : List (String × Json)) : Json

/-- `Map::get`: first binding of `name` in the (deduplicated) entry list. -/
def jGet : List (String × Json) → String → Option Json
  | [], _ => none
  | (k, v) :: rest, name => if k = name then some v else jGet rest name

/-- `Value::get` on an object, `None` otherwise. -/
def Json.get : Json → String → Option Json
  | .obj entries, name => jGet entries name
  | _, _ => none

/-- `Value::as_u64` restricted to the integer model. -/
def Json.asU64 : Json → Option Nat
  | .num n => if 0 ≤ n ∧ n < 2 ^ 64 then some n.toNat else none
  | _ => none

/-- `Value::is_null`. -/
def Json.isNull : Json → Bool
  | .null => true
  | _ => false

/-- `Value::is_object`. -/
def Json.isObject : Json → Bool
  | .obj _ => true
  | _ => false

/-! ## Schema data model (`schema.rs`) -/

/-- Primitive field types. -/
inductive PrimitiveFieldType where
  | string | int64 | uInt64 | float | double | bool | dateTime
deriving DecidableEq

/-- Index-tree writes a field triggers (`InsertedIndex`). -/
inductive InsertedIndex where
  | direct (tree_name : String)
  | rev (tree_name : String)
deriving DecidableEq

/-- `InsertedIndex::tree_name`. -/
def InsertedIndex.treeName : InsertedIndex → String
  | .direct t => t
  | .rev t => t

/-- Field attributes. -/
inductive Attribute where
  | index
  | derivedUnresolved (model : String) (field : String)
deriving DecidableEq

mutual
/-- `FieldType` of `schema.rs` (the resolved constructors). -/
inductive FieldType where
  | primitive (p : PrimitiveFieldType)
  | modelRef (model_index : Nat)
  | modelRefDerived (model_index : Nat)
  | modelRefList (model_index : Nat)
  | primitiveList (p : PrimitiveFieldType)
  | struct (st : Struct)
  | structList (st : Struct) (counter_idx : Nat)

/-- `Field` of `schema.rs`. -/
inductive Field where
  | mk (name : String) (ty : FieldType) (offset_index : Nat) (offset_pos : Nat)
       (is_nullable : Bool) (inserted_indexes : List InsertedIndex)
       (select_index : Option String) (attributes : List Attribute)
       (derived_from : Option (Nat × Nat))

/-- `Struct` of `schema.rs` (embedded record shape with its tree name). -/
inductive Struct where
  | mk (name : String) (fields : List Field) (payload_offset : Nat)
end

def Field.name : Field → String
  | .mk n _ _ _ _ _ _ _ _ => n

def Field.ty : Field → FieldType
  | .mk _ t _ _ _ _ _ _ _ => t

def Field.offset_index : Field → Nat
  | .mk _ _ i _ _ _ _ _ _ => i

def Field.offset_pos : Field → Nat
  | .mk _ _ _ p _ _ _ _ _ => p

def Field.is_nullable : Field → Bool
  | .mk _ _ _ _ b _ _ _ _ => b

def Field.inserted_indexes : Field → List InsertedIndex
  | .mk _ _ _ _ _ idx _ _ _ => idx

def Field.select_index : Field → Option String
  | .mk _ _ _ _ _ _ s _ _ => s

def Field.derived_from : Field → Option (Nat × Nat)
  | .mk _ _ _ _ _ _ _ _ d => d

def Struct.name : Struct → String
  | .mk n _ _ => n

def Struct.fields : Struct → List Field
  | .mk _ f _ => f

def Struct.payload_offset : Struct → Nat
  | .mk _ _ p => p

/-- `Model` of `schema.rs`. -/
structure Model where
  name : String
  fields : List Field
  counter_idx : Nat
  payload_offset : Nat

/-- `Schema`: the resolved model list. -/
structure Schema where
  models : List Model

/-! ## Encoder (`marci_encoder.rs`) -/

/-- `EncodeError` of `marci_encoder.rs`. -/
inductive EncodeError where
  | notAnObject
  | missingField (field : String)
  | typeMismatch (field : String) (expected : String)
  | offsetOverflow
  | emptyObject
deriving DecidableEq

/-- `InsertStruct` of `marci_db.rs`: side effects accumulated by encoding. -/
inductive InsertStruct where
  | none (st : Struct)
  | empty (st : Struct)
  | one (st : Struct) (changed_mask : List Bool) (data : List Nat)
  | many (st : Struct) (counter_idx : Nat) (data : List (Option Nat × List Nat))
  | connect (field : Field) (ref_model : Nat) (ids : List Nat)
  | update (st : Struct) (changed_mask : List Bool) (counter_idx : Nat)
           (data : List Nat) (id : Nat)
  | push (st : Struct) (changed_mask : List Bool) (counter_idx : Nat) (data : List Nat)

/-- `encode_value`: append one primitive's encoding to `dst`. -/
def encode_value (dst : List Nat) (ty : PrimitiveFieldType) (field_name : String)
    (v : Json) : Except EncodeError (List Nat) :=
  match ty with
  | .string =>
    match v with
    | .str s => .ok (dst ++ s)
    | _ => .error (.typeMismatch field_name "string")
  | .dateTime =>
    match v with
    | .num n => .ok (dst ++ intToBeBytes 8 n)
    | .str _ =>
      -- Modelled from the spec: the chrono ISO-8601 string parse (an
      -- external crate) is out of the integer-datetime fragment treated
      -- here; the claims' theorems use the numeric path only.
      .error (.typeMismatch field_name "valid ISO-8601 datetime string")
    | _ => .error (.typeMismatch field_name "int64 (epoch) or ISO-8601 string")
  | .int64 =>
    match v with
    | .num n =>
      if -(2 ^ 63) ≤ n ∧ n < 2 ^ 63 then .ok (dst ++ intToBeBytes 8 n)
      else .error (.typeMismatch field_name "int64")
    | _ => .error (.typeMismatch field_name "int64")
  | .uInt64 =>
    match v with
    | .num n =>
      if 0 ≤ n ∧ n < 2 ^ 64 then .ok (dst ++ natToBeBytes 8 n.toNat)
      else .error (.typeMismatch field_name "uint64")
    | _ => .error (.typeMismatch field_name "uint64")
  | .float =>
    match v with
    | .num n => .ok (dst ++ f32BeBytes n)
    | _ => .error (.typeMismatch field_name "float")
  | .double =>
    match v with
    | .num n => .ok (dst ++ f64BeBytes n)
    | _ => .error (.typeMismatch field_name "double")
  | .bool =>
    match v with
    | .bool b => .ok (dst ++ [if b then 1 else 0])
    | _ => .error (.typeMismatch field_name "bool")

/-- Intermediate encoder state: the buffer, the change mask and the
`InsertStruct` accumulator (`structs` is passed by mutable reference in the
source). -/
abbrev EncState := List Nat × List Bool × List InsertStruct

/-- The id collection of the `ModelRefList` branch (the
`value.iter().enumerate().map(..).collect::<Result<_,_>>()` walk). -/
def collect_ids : List Json → String → Nat → Except EncodeError (List Nat)
  | [], _, _ => .ok []
  | item :: rest, field_name, index =>
    match (item.get "id").bind Json.asU64 with
    | Option.none =>
      .error (.typeMismatch (field_name ++ "[" ++ toString index ++ "]") "\x7b id: u64 \x7d")
    | Option.some id =>
      match collect_ids rest field_name (index + 1) with
      | .error e => .error e
      | .ok ids => .ok (id :: ids)

/-! ## Header primitives (`marci_db.rs`) and the update engine
(`update_data.rs`) -/

/-- `get_offset`: read the big-endian `u32` at `offset_pos`. -/
def get_offset (data : List Nat) (offset_pos : Nat) : Nat :=
  beBytesToNat (readSlice data offset_pos 4)

/-- `set_offset`: write `offset as u32` big-endian at `offset_pos`. -/
def set_offset (data : List Nat) (offset_pos : Nat) (offset : Nat) : List Nat :=
  writeSlice data offset_pos (natToBeBytes 4 (offset % 2 ^ 32))

/-- `set_offset_null`: zero the 4 header bytes at `offset_pos`. -/
def set_offset_null (data : List Nat) (offset_pos : Nat) : List Nat :=
  writeSlice data offset_pos [0, 0, 0, 0]

/-- The header scan of `get_end`, iterating positions
`offset_pos+4, offset_pos+8, …` while below `payload_offset`; `count` is
the number of remaining positions of the `step_by(4)` range. -/
def get_end_from (data : List Nat) : Nat → Nat → Nat
  | _, 0 => data.length
  | j, count + 1 =>
    let off_j := get_offset data j
    if off_j ≠ 0 then off_j else get_end_from data (j + 4) count

/-- `get_end`: the end of the field at `offset_pos` — the next non-zero
header offset after it, or the total buffer length. -/
def get_end (data : List Nat) (offset_pos payload_offset : Nat) : Nat :=
  get_end_from data (offset_pos + 4) ((payload_offset - (offset_pos + 4) + 3) / 4)

/-- The loop of `move_offsets`, same range convention as `get_end_from`;
non-zero offsets are shifted by `diff` (`(offset as isize + diff) as u32`). -/
def move_offsets_from (diff : Int) : List Nat → Nat → Nat → List Nat
  | data, _, 0 => data
  | data, j, count + 1 =>
    let offset := get_offset data j
    let data2 :=
      if offset ≠ 0 then
        writeSlice data j (natToBeBytes 4 (((offset : Int) + diff).emod (2 ^ 32)).toNat)
      else data
    move_offsets_from diff data2 (j + 4) count

/-- `move_offsets`: shift every non-zero header offset in
`[offset_start, offset_end)` by `diff`. -/
def move_offsets (data : List Nat) (offset_start offset_end : Nat) (diff : Int) : List Nat :=
  move_offsets_from diff data offset_start ((offset_end - offset_start + 3) / 4)

/-- `shift_and_resize` of `update_data.rs`: move the suffix `[frm, len)` to
start at `to`, growing or truncating the buffer by `diff`. -/
def shift_and_resize (data : List Nat) (frm tgt : Nat) (diff : Int) : List Nat :=
  let len := data.length
  let new_len := ((len : Int) + diff).toNat
  if frm = len then
    listResize data new_len
  else if diff > 0 then
    let d := listResize data new_len
    writeSlice d tgt (readSlice data frm (len - frm))
  else
    (writeSlice data tgt (readSlice data frm (len - frm))).take new_len

/-- `update_end` of the `update_data` loop (0 when the new offset is 0). -/
def upd_update_end (payload_offset : Nat) (new_data : List Nat) (pos : Nat) : Nat :=
  if get_offset new_data pos = 0 then 0 else get_end new_data pos payload_offset

/-- `update_len` of the `update_data` loop. -/
def upd_update_len (payload_offset : Nat) (new_data : List Nat) (pos : Nat) : Nat :=
  if get_offset new_data pos = 0 then 0
  else upd_update_end payload_offset new_data pos - get_offset new_data pos

/-- `len` of the `update_data` loop (0 for a null field). -/
def upd_len (payload_offset : Nat) (data : List Nat) (pos : Nat) : Nat :=
  if get_offset data pos = 0 then 0 else get_end data pos payload_offset - get_offset data pos

/-- `diff` of the `update_data` loop. -/
def upd_diff (payload_offset : Nat) (new_data data : List Nat) (pos : Nat) : Int :=
  (upd_update_len payload_offset new_data pos : Int) - (upd_len payload_offset data pos : Int)

/-- `new_offset` of the `update_data` loop: the destination position — the
current end (insertion point) for a previously-null field, else the old
offset. -/
def upd_new_offset (payload_offset : Nat) (data : List Nat) (pos : Nat) : Nat :=
  if get_offset data pos = 0 then get_end data pos payload_offset else get_offset data pos

/-- `new_end` of the `update_data` loop. -/
def upd_new_end (payload_offset : Nat) (new_data data : List Nat) (pos : Nat) : Nat :=
  upd_new_offset payload_offset data pos + upd_update_len payload_offset new_data pos

/-- The shift applied when the field's length changed: move the suffix and
the downstream offsets by `diff`. -/
def upd_shifted (payload_offset : Nat) (new_data data : List Nat) (pos : Nat) : List Nat :=
  if upd_diff payload_offset new_data data pos ≠ 0 then
    move_offsets
      (shift_and_resize data (get_end data pos payload_offset)
        (upd_new_end payload_offset new_data data pos)
        (upd_diff payload_offset new_data data pos))
      (pos + 4) payload_offset (upd_diff payload_offset new_data data pos)
  else data

/-- One iteration of the `update_data` field loop. -/
def update_field (payload_offset : Nat) (new_data : List Nat) (changed_mask : List Bool)
    (data : List Nat) (field : Field) : List Nat :=
  if field.offset_pos = 0 then data
  else if !(changed_mask.getD field.offset_index false) then data
  else if get_offset data field.offset_pos = 0 ∧ get_offset new_data field.offset_pos = 0 then
    data
  else if get_offset new_data field.offset_pos = 0 then
    set_offset_null (upd_shifted payload_offset new_data data field.offset_pos) field.offset_pos
  else if upd_new_offset payload_offset data field.offset_pos
        ≠ get_offset data field.offset_pos then
    set_offset
      (writeSlice (upd_shifted payload_offset new_data data field.offset_pos)
        (upd_new_offset payload_offset data field.offset_pos)
        (readSlice new_data (get_offset new_data field.offset_pos)
          (upd_update_len payload_offset new_data field.offset_pos)))
      field.offset_pos (upd_new_offset payload_offset data field.offset_pos)
  else
    writeSlice (upd_shifted payload_offset new_data data field.offset_pos)
      (upd_new_offset payload_offset data field.offset_pos)
      (readSlice new_data (get_offset new_data field.offset_pos)
        (upd_update_len payload_offset new_data field.offset_pos))

/-- `update_data`: apply the masked fields of `new_data` onto `data`. -/
def update_data (fields : List Field) (payload_offset : Nat) (data new_data : List Nat)
    (changed_mask : List Bool) : List Nat :=
  fields.foldl (update_field payload_offset new_data changed_mask) data

/-- `get_offsets`: the header offset of every field of a model, in order. -/
def get_offsets (data : List Nat) (fields : List Field) : List Nat :=
  fields.map (fun field => get_offset data field.offset_pos)

/-! ## Decoder (`marci_decoder.rs`) -/

/-- `DecodeError` of `marci_decoder.rs`. -/
inductive DecodeError where
  | wrongVersion
  | bufferTooSmall
  | utf8Error
  | typeMismatch (msg : String)
  | offsetOutOfRange
deriving DecidableEq

/-- `IncludeResult`: pre-materialised include results handed to decode. -/
inductive IncludeResult (U : Type) where
  | none (field_index : Nat)
  | one (field_index : Nat) (val : U)
  | many (field_index : Nat) (vals : List U)

/-- `DecodeCtx` of `marci_db.rs`. -/
structure DecodeCtx (U : Type) where
  id : Nat
  data : List Nat
  fields : List Field
  payload_offset : Nat
  select : List Bool
  includes : List (IncludeResult U)

/-- `decode_value`: decode one primitive at `offset`. -/
def decode_value (ty : PrimitiveFieldType) (data : List Nat) (offset_pos offset payload_offset : Nat) :
    Except DecodeError Json :=
  match ty with
  | .string =>
    if data.length < 4 then .error .bufferTooSmall
    else
      let dend := get_end data offset_pos payload_offset
      -- `from_utf8` is the identity on the byte-sequence string model
      .ok (.str (readSlice data offset (dend - offset)))
  | .dateTime =>
    if data.length < 8 then .error .bufferTooSmall
    else .ok (.num (beBytesToInt 8 (readSlice data offset 8)))
  | .int64 =>
    if data.length < 8 then .error .bufferTooSmall
    else .ok (.num (beBytesToInt 8 (readSlice data offset 8)))
  | .uInt64 =>
    if data.length < 8 then .error .bufferTooSmall
    else .ok (.num (beBytesToNat (readSlice data offset 8) : Nat))
  | .float =>
    if data.length < 4 then .error .bufferTooSmall
    else .ok (.num (ieeeVal 23 8 (beBytesToNat (readSlice data offset 4))))
  | .double =>
    if data.length < 8 then .error .bufferTooSmall
    else .ok (.num (ieeeVal 52 11 (beBytesToNat (readSlice data offset 8))))
  | .bool =>
    if data.length = 0 then .error .bufferTooSmall
    else .ok (.bool (readByte data offset ≠ 0))

/-- The field loop of `decode_document` (`fields.iter().enumerate()`). -/
def decode_fields (data : List Nat) (payload_offset : Nat) (select : List Bool) :
    List Field → Nat → Except DecodeError (List (String × Json))
  | [], _ => .ok []
  | field :: rest, field_index =>
    if !(select.getD (field_index + 1) false) then
      decode_fields data payload_offset select rest (field_index + 1)
    else
      match field.ty with
      | .primitive primitive =>
        let offset := get_offset data field.offset_pos
        if offset = 0 then
          match decode_fields data payload_offset select rest (field_index + 1) with
          | .error e => .error e
          | .ok entries => .ok ((field.name, Json.null) :: entries)
        else if offset ≥ data.length then .error .offsetOutOfRange
        else
          match decode_value primitive data field.offset_pos offset payload_offset with
          | .error e => .error e
          | .ok value =>
            match decode_fields data payload_offset select rest (field_index + 1) with
            | .error e => .error e
            | .ok entries => .ok ((field.name, value) :: entries)
      | _ => decode_fields data payload_offset select rest (field_index + 1)

/-- The include attachment loop of `decode_document`. -/
def decode_includes (fields : List Field) : List (IncludeResult Json) → List (String × Json)
  | [] => []
  | .none field_index :: rest =>
    ((fields.getD field_index (.mk "" (.primitive .string) 0 0 false [] Option.none [] Option.none)).name,
      Json.null) :: decode_includes fields rest
  | .one field_index val :: rest =>
    ((fields.getD field_index (.mk "" (.primitive .string) 0 0 false [] Option.none [] Option.none)).name,
      val) :: decode_includes fields rest
  | .many field_index vals :: rest =>
    ((fields.getD field_index (.mk "" (.primitive .string) 0 0 false [] Option.none [] Option.none)).name,
      Json.arr vals) :: decode_includes fields rest

/-- `decode_document`: decode a document buffer under a selection into a
JSON object (entries listed in insertion order). -/
def decode_document (ctx : DecodeCtx Json) : Except DecodeError Json :=
  if ctx.data.length < 3 then .error .bufferTooSmall
  else if readByte ctx.data 0 ≠ 1 then .error .wrongVersion
  else if beBytesToNat (readSlice ctx.data 1 2) ≠ ctx.payload_offset % 2 ^ 16 then
    .error (.typeMismatch "payload offset mismatch")
  else if ctx.data.length < ctx.payload_offset then .error .bufferTooSmall
  else
    let idEntries : List (String × Json) :=
      if ctx.select.getD 0 false then [("id", Json.num (ctx.id : Int))] else []
    match decode_fields ctx.data ctx.payload_offset ctx.select ctx.fields 0 with
    | .error e => .error e
    | .ok entries => .ok (Json.obj (idEntries ++ entries ++ decode_includes ctx.fields ctx.includes))

/-! ## Storage collaborator model

Modelled from the spec: the canopydb engine (an external crate) provides
named ordered trees (sorted byte-string maps) with ACID write
transactions; a transaction that returns early without committing leaves
every tree unchanged.  Trees are modelled as association lists sorted by
byte-lexicographic key order; the transactional discipline is modelled by
threading the whole tree state and returning the original state on every
early-error path. -/

/-- Strict byte-lexicographic order on keys. -/
def bytesLt : List Nat → List Nat → Bool
  | [], [] => false
  | [], _ :: _ => true
  | _ :: _, [] => false
  | a :: ra, b :: rb => a < b || (a = b && bytesLt ra rb)

/-- One ordered tree: sorted `(key, value)` pairs. -/
abbrev Tree := List (List Nat × List Nat)

/-- `Tree::get`. -/
def treeGet (t : Tree) (key : List Nat) : Option (List Nat) :=
  (t.find? (fun kv => kv.1 = key)).map (fun kv => kv.2)

/-- `Tree::insert` (upsert, keeping the key order). -/
def treeInsert : Tree → List Nat → List Nat → Tree
  | [], key, v => [(key, v)]
  | (k0, v0) :: rest, key, v =>
    if k0 = key then (key, v) :: rest
    else if bytesLt key k0 then (key, v) :: (k0, v0) :: rest
    else (k0, v0) :: treeInsert rest key v

/-- `Tree::delete`: the pruned tree and whether the key was present. -/
def treeDelete (t : Tree) (key : List Nat) : Tree × Bool :=
  (t.filter (fun kv => kv.1 ≠ key), t.any (fun kv => kv.1 = key))

/-- `Tree::delete_range(start..stop)` under byte-lexicographic order. -/
def treeDeleteRange (t : Tree) (start stop : List Nat) : Tree :=
  t.filter (fun kv => bytesLt kv.1 start || !(bytesLt kv.1 stop))

/-- `Tree::prefix_keys`: the keys beginning with `p`, in order. -/
def treePrefixKeys (t : Tree) (p : List Nat) : List (List Nat) :=
  (t.filter (fun kv => p.isPrefixOf kv.1)).map (fun kv => kv.1)

/-- The storage state: the named trees (the tree namespace as a total
map — every tree the resolver names exists from startup, empty when
untouched) plus the process-wide counter array. -/
structure DBState where
  trees : String → Tree
  counters : List Nat

/-- `tx.get_tree(name)`. -/
def getTree (db : DBState) (name : String) : Tree := db.trees name

/-- Replace the tree `name` in the state. -/
def setTree (db : DBState) (name : String) (t : Tree) : DBState :=
  { db with trees := fun m => if m = name then t else db.trees m }

/-! ## Storage layer (`marci_db.rs`) -/

/-- `InsertError` of `marci_db.rs`. -/
inductive InsertError where
  | foreignKeyViolation (field : String) (id : Nat)
  | itemNotFound (id : Nat)
deriving DecidableEq

/-- `next_id` / `next_idc`: `fetch_add(1)` returning the previous value. -/
def next_idc (db : DBState) (counter_idx : Nat) : Nat × DBState :=
  (db.counters.getD counter_idx 0,
   { db with counters := db.counters.set counter_idx (db.counters.getD counter_idx 0 + 1) })

/-- `make_key`: the 16-byte `a ++ b` join key. -/
def make_key (a b : Nat) : List Nat := natToBeBytes 8 a ++ natToBeBytes 8 b

/-- `get_value::<8>`: the 8 payload bytes at a field's offset, `None` when
the offset is 0. -/
def get_value8 (data : List Nat) (offset_pos : Nat) : Option (List Nat) :=
  let offset := get_offset data offset_pos
  if offset = 0 then Option.none else Option.some (readSlice data offset 8)

/-- `get_value_with_len`: a field's payload bytes delimited by the next
non-zero header offset (same scan as `get_end`). -/
def get_value_with_len (data : List Nat) (offset_pos payload_offset : Nat) : Option (List Nat) :=
  let offset := get_offset data offset_pos
  if offset = 0 then Option.none
  else Option.some (readSlice data offset (get_end data offset_pos payload_offset - offset))

/-- `ForeignKey` of `marci_db.rs` (the referenced model, the owning field
and the 8 id bytes). -/
structure ForeignKey where
  model : Model
  field : Field
  id : List Nat

/-- A placeholder model for out-of-range index reads (never reached under
the theorems' hypotheses; the source would panic). -/
def defaultModel : Model := ⟨"", [], 0, 0⟩

/-- `get_foreign_keys`: the `ModelRef` references of one document. -/
def get_foreign_keys (data : List Nat) (fields : List Field) (schema : Schema) :
    List ForeignKey :=
  fields.foldl
    (fun acc field =>
      if field.derived_from ≠ Option.none then acc
      else
        match field.ty with
        | .modelRef model_index =>
          match get_value8 data field.offset_pos with
          | Option.some bytes =>
            acc ++ [⟨schema.models.getD model_index defaultModel, field, bytes⟩]
          | Option.none => acc
        | _ => acc)
    []

/-- `collect_foreign_keys`: parent references plus the ones inside the
struct side effects. -/
def collect_foreign_keys (data : List Nat) (fields : List Field)
    (structs : List InsertStruct) (schema : Schema) : List ForeignKey :=
  structs.foldl
    (fun acc st =>
      match st with
      | .connect field ref_model ids =>
        acc ++ ids.map (fun item_id =>
          ⟨schema.models.getD ref_model defaultModel, field, natToBeBytes 8 item_id⟩)
      | .many st _ data =>
        acc ++ (data.foldl (fun a item => a ++ get_foreign_keys item.2 st.fields schema) [])
      | .one st _ data => acc ++ get_foreign_keys data st.fields schema
      | _ => acc)
    (get_foreign_keys data fields schema)

/-- `check_foreign_keys`: the first reference whose id is missing from the
referenced model's tree, reported as `ForeignKeyViolation`. -/
def check_foreign_keys (db : DBState) : List ForeignKey → Option InsertError
  | [] => Option.none
  | item :: rest =>
    if treeGet (getTree db item.model.name) item.id = Option.none then
      Option.some (.foreignKeyViolation item.field.name (beBytesToNat item.id))
    else check_foreign_keys db rest

/-- `IndexData`: one pending index-tree write. -/
structure IndexData where
  tree_name : String
  key : List Nat
deriving DecidableEq

/-- `get_indexes`: the index entries a document's fields produce, filtered
by the change mask when given. -/
def get_indexes (data : List Nat) (item_id : Nat) (fields : List Field)
    (payload_offset : Nat) (mask : Option (List Bool)) : List IndexData :=
  fields.foldl
    (fun acc field =>
      if field.offset_pos = 0 ∨ field.inserted_indexes.isEmpty then acc
      else if (mask.map (fun m => !(m.getD field.offset_index false))).getD false then acc
      else
        match get_value_with_len data field.offset_pos payload_offset with
        | Option.none => acc
        | Option.some value =>
          acc ++ field.inserted_indexes.map (fun index =>
            match index with
            | .rev tree_name => ⟨tree_name, value ++ natToBeBytes 8 item_id⟩
            | .direct tree_name => ⟨tree_name, natToBeBytes 8 item_id ++ value⟩))
    []

/-- `find_by_direct`: prefix-scan a join tree by the 8-byte `item_id` and
return the key suffixes. -/
def find_by_direct (db : DBState) (tree_name : String) (item_id : Nat) : List (List Nat) :=
  (treePrefixKeys (getTree db tree_name) (natToBeBytes 8 item_id)).map (fun k => k.drop 8)

/-- `insert_indexes`: write the Direct (`id ++ cid`) and Rev (`cid ++ id`)
halves for every connected id. -/
def insert_indexes (db : DBState) (field : Field) (id : Nat) (ids : List Nat) : DBState :=
  if ids.isEmpty then db
  else
    field.inserted_indexes.foldl
      (fun db index =>
        let t := getTree db index.treeName
        match index with
        | .direct _ =>
          setTree db index.treeName (ids.foldl (fun t cid => treeInsert t (make_key id cid) [1]) t)
        | .rev _ =>
          setTree db index.treeName (ids.foldl (fun t cid => treeInsert t (make_key cid id) [1]) t))
      db

/-- `remove_indexes`: drop the direct half by range and the rev keys found
through the direct scan (the source deletes the 8-byte scan suffixes from
the rev tree verbatim). -/
def remove_indexes (db : DBState) (field : Field) (id : Nat) : DBState :=
  if field.inserted_indexes.isEmpty then db
  else
    match field.inserted_indexes.find? (fun i => match i with | .direct _ => true | _ => false) with
    | Option.none => db  -- the source panics: "Direct index must be defined for batch update"
    | Option.some direct_index =>
      let rev_list := field.inserted_indexes.filter
        (fun i => match i with | .rev _ => true | _ => false)
      if !rev_list.isEmpty then
        let keys := find_by_direct db direct_index.treeName id
        if keys.isEmpty then db
        else
          let db := rev_list.foldl
            (fun db index =>
              match index with
              | .rev tree_name =>
                setTree db tree_name
                  (keys.foldl (fun t key => (treeDelete t key).1) (getTree db tree_name))
              | _ => db)
            db
          field.inserted_indexes.foldl
            (fun db index =>
              match index with
              | .direct tree_name =>
                setTree db tree_name
                  (treeDeleteRange (getTree db tree_name) (natToBeBytes 8 id) (natToBeBytes 8 (id + 1)))
              | _ => db)
            db
      else
        field.inserted_indexes.foldl
          (fun db index =>
            match index with
            | .direct tree_name =>
              setTree db tree_name
                (treeDeleteRange (getTree db tree_name) (natToBeBytes 8 id) (natToBeBytes 8 (id + 1)))
            | _ => db)
          db

/-- The struct-side-effect loop of `insert_data`, accumulating extra index
writes. -/
def insert_structs (schema : Schema) (id : Nat) :
    List InsertStruct → DBState → List IndexData → DBState × List IndexData
  | [], db, indexes => (db, indexes)
  | st :: rest, db, indexes =>
    match st with
    | .many stS counter_idx data =>
      let (db, indexes) := data.foldl
        (fun acc item =>
          let (db, indexes) := acc
          let (item_id, db) :=
            match item.1 with
            | Option.some i => (i, db)
            | Option.none => next_idc db counter_idx
          let db := setTree db stS.name (treeInsert (getTree db stS.name) (make_key id item_id) item.2)
          (db, indexes ++ get_indexes item.2 item_id stS.fields stS.payload_offset Option.none))
        (db, indexes)
      insert_structs schema id rest db indexes
    | .one stS _ data =>
      let db := setTree db stS.name (treeInsert (getTree db stS.name) (natToBeBytes 8 id) data)
      insert_structs schema id rest db indexes
    | .connect field _ ids =>
      insert_structs schema id rest (insert_indexes db field id ids) indexes
    | _ => insert_structs schema id rest db indexes

/-- `insert_data`: allocate an id, verify foreign keys inside the write
transaction, insert the row, the struct rows and the index entries; a
`ForeignKeyViolation` aborts the transaction (trees untouched) — but the
id was already drawn from the counter. -/
def insert_data (db : DBState) (schema : Schema) (model : Model) (data : List Nat)
    (structs : List InsertStruct) : Except InsertError Nat × DBState :=
  let foreign_keys := collect_foreign_keys data model.fields structs schema
  let (id, db) := next_idc db model.counter_idx
  let indexes := structs.foldl
    (fun acc st =>
      match st with
      | .one stS _ data => acc ++ get_indexes data id stS.fields stS.payload_offset Option.none
      | _ => acc)
    (get_indexes data id model.fields model.payload_offset Option.none)
  -- begin_write; the error path below returns the pre-transaction trees
  match check_foreign_keys db foreign_keys with
  | Option.some e => (.error e, db)
  | Option.none =>
    let txdb := setTree db model.name (treeInsert (getTree db model.name) (natToBeBytes 8 id) data)
    let (txdb, indexes) := insert_structs schema id structs txdb indexes
    let txdb := indexes.foldl
      (fun db index => setTree db index.tree_name (treeInsert (getTree db index.tree_name) index.key [1]))
      txdb
    (.ok id, txdb)

/-- The struct-side-effect loop of `MarciDB::update`. -/
def update_structs (schema : Schema) (id : Nat) :
    List InsertStruct → DBState → List IndexData → List IndexData →
      DBState × List IndexData × List IndexData
  | [], db, indexes, indexes_to_remove => (db, indexes, indexes_to_remove)
  | st :: rest, db, indexes, indexes_to_remove =>
    match st with
    | .empty stS =>
      let db := setTree db stS.name
        (treeDeleteRange (getTree db stS.name) (natToBeBytes 8 id) (natToBeBytes 8 (id + 1)))
      update_structs schema id rest db indexes indexes_to_remove
    | .many stS counter_idx data =>
      let (db, indexes) := data.foldl
        (fun acc item =>
          let (db, indexes) := acc
          let (item_id, db) :=
            match item.1 with
            | Option.some i => (i, db)
            | Option.none => next_idc db counter_idx
          let db := setTree db stS.name (treeInsert (getTree db stS.name) (make_key id item_id) item.2)
          (db, indexes ++ get_indexes item.2 item_id stS.fields stS.payload_offset Option.none))
        (db, indexes)
      update_structs schema id rest db indexes indexes_to_remove
    | .one stS changed_mask new_data =>
      (match treeGet (getTree db stS.name) (natToBeBytes 8 id) with
       | Option.some data =>
         let updated := update_data stS.fields stS.payload_offset data new_data changed_mask
         let db := setTree db stS.name (treeInsert (getTree db stS.name) (natToBeBytes 8 id) updated)
         let indexes_to_remove := indexes_to_remove ++
           get_indexes data id stS.fields stS.payload_offset (Option.some changed_mask)
         update_structs schema id rest db indexes indexes_to_remove
       | Option.none =>
         let db := setTree db stS.name (treeInsert (getTree db stS.name) (natToBeBytes 8 id) new_data)
         update_structs schema id rest db indexes indexes_to_remove)
    | .connect field _ ids =>
      let db := remove_indexes db field id
      let db := insert_indexes db field id ids
      update_structs schema id rest db indexes indexes_to_remove
    | .none stS =>
      let db := setTree db stS.name ((treeDelete (getTree db stS.name) (natToBeBytes 8 id)).1)
      update_structs schema id rest db indexes indexes_to_remove
    | _ => update_structs schema id rest db indexes indexes_to_remove

/-- `MarciDB::update`: verify foreign keys, merge via the update engine,
replay the struct side effects, then apply index removals and inserts. -/
def db_update (db : DBState) (schema : Schema) (model : Model) (id : Nat)
    (new_data : List Nat) (changed_mask : List Bool) (structs : List InsertStruct) :
    Except InsertError Nat × DBState :=
  let foreign_keys := collect_foreign_keys new_data model.fields structs schema
  let indexes := structs.foldl
    (fun acc st =>
      match st with
      | .one stS _ data => acc ++ get_indexes data id stS.fields stS.payload_offset Option.none
      | _ => acc)
    (get_indexes new_data id model.fields model.payload_offset Option.none)
  match check_foreign_keys db foreign_keys with
  | Option.some e => (.error e, db)
  | Option.none =>
    match treeGet (getTree db model.name) (natToBeBytes 8 id) with
    | Option.none => (.error (.itemNotFound id), db)
    | Option.some data =>
      let updated_data := update_data model.fields model.payload_offset data new_data changed_mask
      let txdb := setTree db model.name
        (treeInsert (getTree db model.name) (natToBeBytes 8 id) updated_data)
      let indexes_to_remove :=
        get_indexes data id model.fields model.payload_offset (Option.some changed_mask)
      let (txdb, indexes, indexes_to_remove) :=
        update_structs schema id structs txdb indexes indexes_to_remove
      let txdb := indexes_to_remove.foldl
        (fun db index => setTree db index.tree_name ((treeDelete (getTree db index.tree_name) index.key).1))
        txdb
      let txdb := indexes.foldl
        (fun db index => setTree db index.tree_name (treeInsert (getTree db index.tree_name) index.key [1]))
        txdb
      (.ok id, txdb)

/-- `MarciDB::delete`: remove only the parent row; `false` (and no commit)
when the id is absent. -/
def db_delete (db : DBState) (model : Model) (id : Nat) : Bool × DBState :=
  let (t2, existed) := treeDelete (getTree db model.name) (natToBeBytes 8 id)
  if !existed then (false, db)
  else (true, setTree db model.name t2)

/-! ## Selection compiler (`marci_select.rs`) -/

/-- `Value::is_boolean`. -/
def Json.isBoolean : Json → Bool
  | .bool _ => true
  | _ => false

/-- `Value::as_bool`. -/
def Json.asBool : Json → Option Bool
  | .bool b => some b
  | _ => none

/-- `matches!(v, Value::Bool(false))`. -/
def Json.isFalse : Json → Bool
  | .bool false => true
  | _ => false

/-- `matches!(v, Value::Bool(true))`. -/
def Json.isTrue : Json → Bool
  | .bool true => true
  | _ => false

/-- `MarciSelectError` of `marci_select.rs`. -/
inductive MarciSelectError where
  | missingField (field : String)
deriving DecidableEq

/-- The `&dyn WithFields` target of an include (model or struct). -/
inductive ShapeRef where
  | model (m : Model)
  | struct (st : Struct)

mutual
/-- `MarciSelect`: compiled selection bits plus typed includes. -/
inductive MarciSelect where
  | mk (select : List Bool) (includes : List MarciSelectInclude)

/-- `MarciSelectInclude` of `marci_db.rs`. -/
inductive MarciSelectInclude where
  | mk (field_index : Nat) (shape : ShapeRef) (select : MarciSelect)
       (binding : MarciSelectBinding)

/-- `MarciSelectBinding` of `marci_db.rs`. -/
inductive MarciSelectBinding where
  | one (offset_pos : Nat)
  | many (tree_name : String)
  | oneStruct
  | manyStruct
end

/-- `MarciSelect.select` projection. -/
def MarciSelect.select : MarciSelect → List Bool
  | .mk s _ => s

/-- `MarciSelect.includes` projection. -/
def MarciSelect.includes : MarciSelect → List MarciSelectInclude
  | .mk _ i => i

/-- `MarciSelect::all`: every bit (the id bit included) set, no includes. -/
def MarciSelect.all (fields : List Field) : MarciSelect :=
  .mk (List.replicate (fields.length + 1) true) []

/-- A found value stands below its object. -/
theorem Json.get_sizeOf_lt {j : Json} {name : String} {v : Json}
    (h : Json.get j name = some v) : sizeOf v < sizeOf j := by
  match j with
  | .obj entries =>
    simp [Json.get] at h
    have : sizeOf v < sizeOf entries := by
      clear * - h
      induction entries with
      | nil => simp [jGet] at h
      | cons kv rest ih =>
        obtain ⟨k, x⟩ := kv
        by_cases hk : k = name
        · simp [jGet, hk] at h
          subst h
          simp
          omega
        · simp [jGet, hk] at h
          have := ih h
          simp
          omega
    simp
    omega
  | .null | .bool _ | .num _ | .str _ | .arr _ => simp [Json.get] at h

mutual
/-- `parse_select`: compile a JSON selector against a field list; any
top-level boolean selects everything. -/
def parse_select (fields : List Field) (json : Json) (schema : Schema) :
    Except MarciSelectError MarciSelect :=
  if json.isBoolean then .ok (MarciSelect.all fields)
  else
    let changed_mask : List Bool := List.replicate (fields.length + 1) false
    let changed_mask :=
      if ((json.get "id").bind Json.asBool).getD false then changed_mask.set 0 true
      else changed_mask
    match parse_select_fields fields 0 json schema changed_mask [] with
    | .error e => .error e
    | .ok (mask, includes) => .ok (.mk mask includes)
termination_by (sizeOf json, fields.length + 1)
decreasing_by
  simp_wf
  apply Prod.Lex.right
  omega

/-- The field loop of `parse_select`. -/
def parse_select_fields (flds : List Field) (field_index : Nat) (json : Json)
    (schema : Schema) (changed_mask : List Bool) (includes : List MarciSelectInclude) :
    Except MarciSelectError (List Bool × List MarciSelectInclude) :=
  match flds with
  | [] => .ok (changed_mask, includes)
  | field :: rest =>
    match hv : json.get field.name with
    | Option.none => parse_select_fields rest (field_index + 1) json schema changed_mask includes
    | Option.some val =>
      if val.isFalse then
        parse_select_fields rest (field_index + 1) json schema changed_mask includes
      else
        match field.ty with
        | .modelRef model_index =>
          let model := schema.models.getD model_index defaultModel
          match parse_select model.fields val schema with
          | .error e => .error e
          | .ok sel =>
            parse_select_fields rest (field_index + 1) json schema changed_mask
              (includes ++ [.mk field_index (.model model) sel (.one field.offset_pos)])
        | .modelRefList model_index =>
          let model := schema.models.getD model_index defaultModel
          match parse_select model.fields val schema with
          | .error e => .error e
          | .ok sel =>
            let tree_name := field.select_index.getD ""  -- the source panics when absent
            parse_select_fields rest (field_index + 1) json schema changed_mask
              (includes ++ [.mk field_index (.model model) sel (.many tree_name)])
        | .struct st =>
          match parse_select st.fields val schema with
          | .error e => .error e
          | .ok sel =>
            let sel := if val.isTrue then MarciSelect.mk (sel.select.set 0 false) sel.includes else sel
            parse_select_fields rest (field_index + 1) json schema changed_mask
              (includes ++ [.mk field_index (.struct st) sel .oneStruct])
        | .structList st _ =>
          match parse_select st.fields val schema with
          | .error e => .error e
          | .ok sel =>
            parse_select_fields rest (field_index + 1) json schema changed_mask
              (includes ++ [.mk field_index (.struct st) sel .manyStruct])
        | _ =>
          parse_select_fields rest (field_index + 1) json schema
            (changed_mask.set (field_index + 1) true) includes
termination_by (sizeOf json, flds.length)
decreasing_by
  all_goals simp_wf
  all_goals first
  | (apply Prod.Lex.right
     omega)
  | (have hlt := Json.get_sizeOf_lt hv
     apply Prod.Lex.left
     omega)
end

/-- A successful object lookup finds a structurally smaller value. -/
theorem jGet_sizeOf_lt {entries : List (String × Json)} {name : String} {v : Json}
    (h : jGet entries name = some v) : sizeOf v < sizeOf entries := by
  induction entries with
  | nil => simp [jGet] at h
  | cons kv rest ih =>
    obtain ⟨k, x⟩ := kv
    by_cases hk : k = name
    · simp [jGet, hk] at h
      subst h
      simp
      omega
    · simp [jGet, hk] at h
      have := ih h
      simp
      omega

mutual
/-- `encode_document`: encode a JSON document for a shape given by its
field list and `payload_offset` (the `WithFields` capability). -/
def encode_document (fields : List Field) (payload_offset : Nat) (json : Json)
    (structs : List InsertStruct) : Except EncodeError EncState :=
  match json with
  | .obj obj =>
    let buf0 : List Nat := listResize (1 :: natToBeBytes 2 (payload_offset % 2 ^ 16)) payload_offset
    let initial_size := buf0.length
    let max_offset_index := ((fields.map Field.offset_index).max?).getD 0
    let mask0 : List Bool := List.replicate (max_offset_index + 1) false
    match encode_fields fields obj buf0 mask0 structs with
    | .error e => .error e
    | .ok (buf, mask, structs2) =>
      if buf.length = initial_size ∧ structs2.length = 0 then .error .emptyObject
      else .ok (buf, mask, structs2)
  | _ => .error .notAnObject
termination_by (sizeOf json + 1, 0)
decreasing_by
  all_goals simp_wf
  all_goals apply Prod.Lex.left
  all_goals omega

/-- The field walk of `encode_document` (the `for field in model.fields()`
loop), threading the buffer, mask and struct accumulator. -/
def encode_fields (flds : List Field) (obj : List (String × Json)) (buf : List Nat)
    (mask : List Bool) (structs : List InsertStruct) : Except EncodeError EncState :=
  match flds with
  | [] => .ok (buf, mask, structs)
  | field :: rest =>
    match hv : jGet obj field.name with
    | Option.none => encode_fields rest obj buf mask structs
    | Option.some value =>
      if value.isNull then
        match field.ty with
        | .struct st => encode_fields rest obj buf mask (structs ++ [.none st])
        | .structList _ _ => .error (.typeMismatch field.name "Array")
        | .modelRefList _ => .error (.typeMismatch field.name "Array<\x7b id: u64 \x7d>")
        | _ => encode_fields rest obj buf (mask.set field.offset_index true) structs
      else
        match field.ty with
        | .primitive p =>
          -- start := buf.len(); write the offset slot, then append the value
          match encode_value (writeSlice buf field.offset_pos (natToBeBytes 4 (buf.length % 2 ^ 32)))
              p field.name value with
          | .error e => .error e
          | .ok buf => encode_fields rest obj buf (mask.set field.offset_index true) structs
        | .modelRef _ =>
          if !value.isObject then .error (.typeMismatch field.name "object")
          else
            match value.get "id" with
            | Option.none => .error (.typeMismatch field.name "\x7b id: u64 \x7d")
            | Option.some item_id =>
              match encode_value (writeSlice buf field.offset_pos (natToBeBytes 4 (buf.length % 2 ^ 32)))
                  .uInt64 field.name item_id with
              | .error e => .error e
              | .ok buf => encode_fields rest obj buf (mask.set field.offset_index true) structs
        | .modelRefList model_index =>
          match hval : value with
          | .arr items =>
            match collect_ids items field.name 0 with
            | .error e => .error e
            | .ok ids =>
              encode_fields rest obj buf mask (structs ++ [.connect field model_index ids])
          | _ => .error (.typeMismatch field.name "Array<\x7b id: u64 \x7d>")
        | .struct st =>
          match encode_document st.fields st.payload_offset value structs with
          | .error e => .error e
          | .ok (data, changed_values, structs2) =>
            encode_fields rest obj buf mask (structs2 ++ [.one st changed_values data])
        | .structList st counter_idx =>
          match hval : value with
          | .arr items =>
            if items.length = 0 then
              encode_fields rest obj buf mask (structs ++ [.empty st])
            else
              match encode_many st items structs with
              | .error e => .error e
              | .ok (vec_many, structs2) =>
                encode_fields rest obj buf mask (structs2 ++ [.many st counter_idx vec_many])
          | _ => .error (.typeMismatch field.name "Array")
        | _ => encode_fields rest obj buf mask structs
termination_by (sizeOf obj + 1, flds.length + 1)
decreasing_by
  all_goals simp_wf
  all_goals first
  | (apply Prod.Lex.right
     omega)
  | (have hlt := jGet_sizeOf_lt hv
     apply Prod.Lex.left
     simp_all
     try omega)

/-- The `StructList` element loop of `encode_document`. -/
def encode_many (st : Struct) (items : List Json) (structs : List InsertStruct) :
    Except EncodeError (List (Option Nat × List Nat) × List InsertStruct) :=
  match items with
  | [] => .ok ([], structs)
  | item :: rest =>
    match (item.get "id").bind Json.asU64 with
    | Option.some id =>
      match encode_document st.fields st.payload_offset item structs with
      | .error e => .error e
      | .ok (data, _, structs2) =>
        match encode_many st rest structs2 with
        | .error e => .error e
        | .ok (vec_many, structs3) => .ok ((Option.some id, data) :: vec_many, structs3)
    | Option.none =>
      match encode_document st.fields st.payload_offset item structs with
      | .error e => .error e
      | .ok (data, _, structs2) =>
        match encode_many st rest structs2 with
        | .error e => .error e
        | .ok (vec_many, structs3) => .ok ((Option.none, data) :: vec_many, structs3)
termination_by (sizeOf items + 1, 0)
decreasing_by
  all_goals simp_wf
  all_goals apply Prod.Lex.left
  all_goals omega
end

/-! ## Concrete schema instances used by the scenario claims -/

/-- The 3-field `User` model of scenarios S1-S4
(`model User { name String; surname String; age Int }`), exactly as the
resolver lays it out: consecutive offset slots at 3, 7, 11 and
`payload_offset = 3 + 3*4 = 15`. -/
def userFields : List Field :=
  [ .mk "name" (.primitive .string) 0 3 false [] Option.none [] Option.none,
    .mk "surname" (.primitive .string) 1 7 false [] Option.none [] Option.none,
    .mk "age" (.primitive .int64) 2 11 false [] Option.none [] Option.none ]

/-- The stored `User` buffer after inserting `\x7bname:"Bob"\x7d` (S1):
version 1, `payload_offset` 15, offsets `[15,0,0]`, payload `"Bob"`. -/
def c2_data : List Nat :=
  [1, 0, 15, 0, 0, 0, 15, 0, 0, 0, 0, 0, 0, 0, 0, 66, 111, 98]

/-- The encoded partial buffer of the update `\x7bage:30\x7d` (S2):
offsets `[0,0,15]`, payload the eight big-endian bytes of `30 : i64`. -/
def c2_new_data : List Nat :=
  [1, 0, 15, 0, 0, 0, 0, 0, 0, 0, 0, 0, 0, 0, 15, 0, 0, 0, 0, 0, 0, 0, 30]

/-- The change mask of the update `\x7bage:30\x7d`: only `age` changed. -/
def c2_mask : List Bool := [false, false, true]

/-! ## The value fragment of the round-trip claim (C1)

`prim_bytes` is the payload `encode_value` appends for a value of the
matching shape; `conforms` is the fragment of conforming values on which
the amended round trip is proved: non-null values of the declared
primitive shape, in-range integers, non-empty strings, integer
(epoch-milliseconds) datetimes — the DateTime string→ms normalisation and
the float/double precision carve-outs of P1 put string datetimes and
floats outside the exact-equality fragment. -/

/-- The payload bytes `encode_value` appends for a conforming value. -/
def prim_bytes : PrimitiveFieldType → Json → List Nat
  | .string, .str s => s
  | .int64, .num nv => intToBeBytes 8 nv
  | .dateTime, .num nv => intToBeBytes 8 nv
  | .uInt64, .num nv => natToBeBytes 8 nv.toNat
  | .bool, .bool b => [if b then 1 else 0]
  | _, _ => []

/-- Conforming (non-null) values of a primitive field shape. -/
def conforms : PrimitiveFieldType → Json → Prop
  | .string, .str s => s ≠ []
  | .int64, .num nv => -(2 ^ 63) ≤ nv ∧ nv < 2 ^ 63
  | .dateTime, .num nv => -(2 ^ 63) ≤ nv ∧ nv < 2 ^ 63
  | .uInt64, .num nv => 0 ≤ nv ∧ nv < 2 ^ 64
  | .bool, .bool _ => True
  | _, _ => False

/-- The payload bytes a field/value pair contributes. -/
def field_bytes (f : Field) (v : Json) : List Nat :=
  match f.ty with
  | .primitive p => prim_bytes p v
  | _ => []

/-- Total payload length of a field/value list. -/
def total_bytes : List (Field × Json) → Nat
  | [] => 0
  | (f, v) :: rest => (field_bytes f v).length + total_bytes rest

/-- The object binds exactly the fields, in declaration order, to
conforming primitive values. -/
def encodes_cleanly : List Field → List (String × Json) → Prop
  | [], [] => True
  | f :: fs, (nm, v) :: es =>
    f.name = nm ∧ (∃ p, f.ty = .primitive p ∧ conforms p v) ∧ encodes_cleanly fs es
  | _, _ => False

/-- The fields sit at the canonical consecutive offset slots from `i`. -/
def canonical_from : Nat → List Field → Prop
  | _, [] => True
  | i, f :: fs => f.offset_pos = 3 + 4 * i ∧ canonical_from (i + 1) fs

/-- The buffer's offset slots from `i` record the running payload cursor
`cur` for the given field/value list. -/
def slots_from (B : List Nat) : Nat → Nat → List (Field × Json) → Prop
  | _, _, [] => True
  | i, cur, (f, v) :: rest =>
    get_offset B (3 + 4 * i) = cur
    ∧ slots_from B (i + 1) (cur + (field_bytes f v).length) rest

/-- The buffer holds each field's payload bytes consecutively from `cur`,
ending exactly at the buffer's end. -/
def payload_from (B : List Nat) : Nat → List (Field × Json) → Prop
  | cur, [] => B.length = cur
  | cur, (f, v) :: rest =>
    readSlice B cur (field_bytes f v).length = field_bytes f v
    ∧ payload_from B (cur + (field_bytes f v).length) rest

/-- The 2-field model of the C1 counterexample
(`model M \x7b age Int; name String \x7d`): slots 3 and 7,
`payload_offset = 11`. -/
def c1_fields : List Field :=
  [ .mk "age" (.primitive .int64) 0 3 false [] Option.none [] Option.none,
    .mk "name" (.primitive .string) 1 7 false [] Option.none [] Option.none ]

/-! ## Claim theorems -/

/-- C9: `parse_select` treats any top-level boolean selector as
select-everything — compiling `false` equals compiling `true`, both giving
every primitive bit (the id bit included) with no includes; a `false`
suppresses a field only as the value of a named field inside an object
selector, where that field is skipped. -/
theorem parse_select_boolean_selects_all (fields : List Field) (schema : Schema) :
    (parse_select fields (Json.bool false) schema = parse_select fields (Json.bool true) schema
      ∧ parse_select fields (Json.bool false) schema
          = .ok (.mk (List.replicate (fields.length + 1) true) []))
    ∧ ∀ (field : Field) (rest : List Field) (field_index : Nat) (json : Json)
        (changed_mask : List Bool) (includes : List MarciSelectInclude),
        json.get field.name = some (Json.bool false) →
        parse_select_fields (field :: rest) field_index json schema changed_mask includes
          = parse_select_fields rest (field_index + 1) json schema changed_mask includes := by
  refine ⟨⟨?_, ?_⟩, ?_⟩
  · simp [parse_select, Json.isBoolean]
  · simp [parse_select, Json.isBoolean, MarciSelect.all]
  · intro field rest field_index json changed_mask includes h
    rw [parse_select_fields]
    split
    next => rfl
    next val hv =>
      rw [h] at hv
      injection hv with hval
      subst hval
      simp [Json.isFalse]

/-- C9 witness: a concrete selector `{f: false}` skips the field `f`. -/
theorem parse_select_boolean_selects_all_witness :
    parse_select_fields
        [Field.mk "f" (.primitive .string) 0 3 false [] Option.none [] Option.none] 0
        (Json.obj [("f", Json.bool false)]) ⟨[]⟩ [false] []
      = parse_select_fields [] 1 (Json.obj [("f", Json.bool false)]) ⟨[]⟩ [false] [] :=
  (parse_select_boolean_selects_all [] ⟨[]⟩).2
    (Field.mk "f" (.primitive .string) 0 3 false [] Option.none [] Option.none)
    [] 0 (Json.obj [("f", Json.bool false)]) [false] [] (by rfl)

/-- C3: the concrete insert/update scenario on the `User` schema — the
insert of `{name:"Bob"}` yields header `payload_offset = 15` (bytes
`[0,15]`), offset table `[15,0,0]` and total length 18; applying the
updates `{age:30}`, then `{name:"Bobber", surname:"Tester"}`, then
`{name:null, surname:"", age:80}` through `encode_document` +
`update_data` ends with offset table `[0,15,15]` and total length 23
(name cleared to offset 0; surname an empty string at a non-zero offset
with zero payload bytes; age present). -/
theorem concrete_update_scenario :
    encode_document userFields 15 (Json.obj [("name", Json.str [66, 111, 98])]) []
        = .ok ([1, 0, 15, 0, 0, 0, 15, 0, 0, 0, 0, 0, 0, 0, 0, 66, 111, 98],
               [true, false, false], [])
    ∧ readSlice [1, 0, 15, 0, 0, 0, 15, 0, 0, 0, 0, 0, 0, 0, 0, 66, 111, 98] 1 2 = [0, 15]
    ∧ get_offsets [1, 0, 15, 0, 0, 0, 15, 0, 0, 0, 0, 0, 0, 0, 0, 66, 111, 98] userFields
        = [15, 0, 0]
    ∧ ([1, 0, 15, 0, 0, 0, 15, 0, 0, 0, 0, 0, 0, 0, 0, 66, 111, 98] : List Nat).length = 18
    ∧ encode_document userFields 15 (Json.obj [("age", Json.num 30)]) []
        = .ok ([1, 0, 15, 0, 0, 0, 0, 0, 0, 0, 0, 0, 0, 0, 15, 0, 0, 0, 0, 0, 0, 0, 30],
               [false, false, true], [])
    ∧ update_data userFields 15
          [1, 0, 15, 0, 0, 0, 15, 0, 0, 0, 0, 0, 0, 0, 0, 66, 111, 98]
          [1, 0, 15, 0, 0, 0, 0, 0, 0, 0, 0, 0, 0, 0, 15, 0, 0, 0, 0, 0, 0, 0, 30]
          [false, false, true]
        = [1, 0, 15, 0, 0, 0, 15, 0, 0, 0, 0, 0, 0, 0, 18, 66, 111, 98, 0, 0, 0, 0, 0, 0, 0, 30]
    ∧ encode_document userFields 15
          (Json.obj [("name", Json.str [66, 111, 98, 98, 101, 114]),
                     ("surname", Json.str [84, 101, 115, 116, 101, 114])]) []
        = .ok ([1, 0, 15, 0, 0, 0, 15, 0, 0, 0, 21, 0, 0, 0, 0,
                66, 111, 98, 98, 101, 114, 84, 101, 115, 116, 101, 114],
               [true, true, false], [])
    ∧ update_data userFields 15
          [1, 0, 15, 0, 0, 0, 15, 0, 0, 0, 0, 0, 0, 0, 18, 66, 111, 98, 0, 0, 0, 0, 0, 0, 0, 30]
          [1, 0, 15, 0, 0, 0, 15, 0, 0, 0, 21, 0, 0, 0, 0,
           66, 111, 98, 98, 101, 114, 84, 101, 115, 116, 101, 114]
          [true, true, false]
        = [1, 0, 15, 0, 0, 0, 15, 0, 0, 0, 21, 0, 0, 0, 27,
           66, 111, 98, 98, 101, 114, 84, 101, 115, 116, 101, 114, 0, 0, 0, 0, 0, 0, 0, 30]
    ∧ encode_document userFields 15
          (Json.obj [("name", Json.null), ("surname", Json.str []), ("age", Json.num 80)]) []
        = .ok ([1, 0, 15, 0, 0, 0, 0, 0, 0, 0, 15, 0, 0, 0, 15, 0, 0, 0, 0, 0, 0, 0, 80],
               [true, true, true], [])
    ∧ update_data userFields 15
          [1, 0, 15, 0, 0, 0, 15, 0, 0, 0, 21, 0, 0, 0, 27,
           66, 111, 98, 98, 101, 114, 84, 101, 115, 116, 101, 114, 0, 0, 0, 0, 0, 0, 0, 30]
          [1, 0, 15, 0, 0, 0, 0, 0, 0, 0, 15, 0, 0, 0, 15, 0, 0, 0, 0, 0, 0, 0, 80]
          [true, true, true]
        = [1, 0, 15, 0, 0, 0, 0, 0, 0, 0, 15, 0, 0, 0, 15, 0, 0, 0, 0, 0, 0, 0, 80]
    ∧ get_offsets [1, 0, 15, 0, 0, 0, 0, 0, 0, 0, 15, 0, 0, 0, 15, 0, 0, 0, 0, 0, 0, 0, 80]
          userFields
        = [0, 15, 15]
    ∧ ([1, 0, 15, 0, 0, 0, 0, 0, 0, 0, 15, 0, 0, 0, 15, 0, 0, 0, 0, 0, 0, 0, 80] : List Nat).length
        = 23 := by
  refine ⟨?_, by decide, by decide, by decide, ?_, by decide, ?_, by decide, ?_, by decide,
    by decide, by decide⟩
  all_goals
    simp [userFields, encode_document, encode_fields, encode_value, jGet, listResize,
      natToBeBytes, writeSlice, readSlice, Json.isNull, Field.name, Field.ty,
      Field.offset_index, Field.offset_pos, intToBeBytes]
  all_goals decide

/-- Reading through a tree replacement. -/
theorem getTree_setTree (db : DBState) (n : String) (t : Tree) (m : String) :
    getTree (setTree db n t) m = if m = n then t else getTree db m := by
  simp [getTree, setTree]

/-- `setTree` leaves the counters alone. -/
theorem counters_setTree (db : DBState) (n : String) (t : Tree) :
    (setTree db n t).counters = db.counters := rfl

/-- C8: `delete(model, id)` removes only the parent row at key `id` in the
model's own tree — the model tree loses exactly that key, every other
tree (struct trees, join/index trees) is untouched, and the counters are
unchanged (no cascade). -/
theorem delete_frame (db : DBState) (model : Model) (id : Nat) :
    ((db_delete db model id).2.counters = db.counters)
    ∧ getTree (db_delete db model id).2 model.name
        = (getTree db model.name).filter (fun kv => kv.1 ≠ natToBeBytes 8 id)
    ∧ ∀ name, name ≠ model.name →
        getTree (db_delete db model id).2 name = getTree db name := by
  unfold db_delete treeDelete
  by_cases h : (getTree db model.name).any (fun kv => kv.1 = natToBeBytes 8 id)
  · simp only [h]
    refine ⟨rfl, ?_, ?_⟩
    · simp [getTree_setTree]
    · intro name hn
      simp [getTree_setTree, hn]
  · simp only [h]
    refine ⟨rfl, ?_, fun name hn => rfl⟩
    have : ∀ kv ∈ getTree db model.name, ¬(kv.1 = natToBeBytes 8 id) := by
      intro kv hkv
      by_contra hc
      exact h (List.any_eq_true.mpr ⟨kv, hkv, decide_eq_true hc⟩)
    simp
    exact (List.filter_eq_self.mpr (fun kv hkv => by
      simpa using this kv hkv)).symm

/-- C8 witness: deleting id 1 of model `M` leaves the unrelated tree `N`
unchanged in a concrete two-tree state. -/
theorem delete_frame_witness :
    ("N" : String) ≠ "M"
    ∧ getTree (db_delete
        ⟨fun name => if name = "M" then [(natToBeBytes 8 1, [1])] else [([0], [7])], [2]⟩
        ⟨"M", [], 0, 3⟩ 1).2 "N"
      = getTree
        ⟨fun name => if name = "M" then [(natToBeBytes 8 1, [1])] else [([0], [7])], [2]⟩ "N" :=
  ⟨by decide,
   (delete_frame
      ⟨fun name => if name = "M" then [(natToBeBytes 8 1, [1])] else [([0], [7])], [2]⟩
      ⟨"M", [], 0, 3⟩ 1).2.2 "N" (by decide)⟩

/-- A missing reference makes `check_foreign_keys` report the violation of
some missing entry (the first one in collection order). -/
theorem check_foreign_keys_some_of_missing (db : DBState) (l : List ForeignKey)
    (h : ∃ fk ∈ l, treeGet (getTree db fk.model.name) fk.id = Option.none) :
    ∃ fk ∈ l, treeGet (getTree db fk.model.name) fk.id = Option.none
      ∧ check_foreign_keys db l
          = Option.some (.foreignKeyViolation fk.field.name (beBytesToNat fk.id)) := by
  induction l with
  | nil => simp at h
  | cons item rest ih =>
    by_cases hm : treeGet (getTree db item.model.name) item.id = Option.none
    · exact ⟨item, List.mem_cons_self item rest, hm, by simp [check_foreign_keys, hm]⟩
    · obtain ⟨fk, hfk, hmiss⟩ := h
      rcases List.mem_cons.mp hfk with rfl | htail
      · exact absurd hmiss hm
      · obtain ⟨fk2, h1, h2, h3⟩ := ih ⟨fk, htail, hmiss⟩
        exact ⟨fk2, List.mem_cons_of_mem item h1, h2, by simp [check_foreign_keys, hm, h3]⟩

/-- `check_foreign_keys` only reads the trees, never the counters. -/
theorem check_foreign_keys_counters_invariant (trees : String → Tree) (c1 c2 : List Nat)
    (l : List ForeignKey) :
    check_foreign_keys ⟨trees, c1⟩ l = check_foreign_keys ⟨trees, c2⟩ l := by
  induction l with
  | nil => rfl
  | cons item rest ih => simp [check_foreign_keys, getTree, ih]

/-- C5: a foreign-key violation aborts the insert atomically — when a
collected reference (a `ModelRef` field or a `Connect` side effect) names
an id missing from the referenced model's tree, `insert_data` returns
`ForeignKeyViolation` with that reference's field name and id, and every
tree (so also every row) is exactly as before the call. -/
theorem insert_data_foreign_key_atomic (db : DBState) (schema : Schema) (model : Model)
    (data : List Nat) (structs : List InsertStruct)
    (h : ∃ fk ∈ collect_foreign_keys data model.fields structs schema,
           treeGet (getTree db fk.model.name) fk.id = Option.none) :
    (∃ fk ∈ collect_foreign_keys data model.fields structs schema,
        treeGet (getTree db fk.model.name) fk.id = Option.none
        ∧ (insert_data db schema model data structs).1
            = .error (.foreignKeyViolation fk.field.name (beBytesToNat fk.id)))
    ∧ ∀ name, getTree (insert_data db schema model data structs).2 name = getTree db name := by
  obtain ⟨fk, hmem, hmiss, hcheck⟩ := check_foreign_keys_some_of_missing db _ h
  have hc2 : check_foreign_keys
      ⟨db.trees, db.counters.set model.counter_idx (db.counters.getD model.counter_idx 0 + 1)⟩
      (collect_foreign_keys data model.fields structs schema)
      = Option.some (.foreignKeyViolation fk.field.name (beBytesToNat fk.id)) := by
    rw [check_foreign_keys_counters_invariant _ _ db.counters]
    exact hcheck
  constructor
  · refine ⟨fk, hmem, hmiss, ?_⟩
    simp only [insert_data, next_idc]
    rw [hc2]
  · intro name
    simp only [insert_data, next_idc]
    rw [hc2]
    rfl

/-- C5 witness: inserting a `Post` whose `author` references the missing
`User` id 99999 fails with `ForeignKeyViolation("author", 99999)` and
leaves the `Post` tree as it was. -/
theorem insert_data_foreign_key_atomic_witness :
    (∃ fk ∈ collect_foreign_keys
          [1, 0, 7, 0, 0, 0, 7, 0, 0, 0, 0, 0, 1, 134, 159]
          [Field.mk "author" (.modelRef 1) 0 3 false [] Option.none [] Option.none]
          [] ⟨[⟨"Post", [Field.mk "author" (.modelRef 1) 0 3 false [] Option.none [] Option.none], 0, 7⟩,
              ⟨"User", [], 1, 3⟩]⟩,
        treeGet (getTree ⟨fun _ => [], [1, 1]⟩ fk.model.name) fk.id = Option.none)
    ∧ getTree (insert_data ⟨fun _ => [], [1, 1]⟩
          ⟨[⟨"Post", [Field.mk "author" (.modelRef 1) 0 3 false [] Option.none [] Option.none], 0, 7⟩,
            ⟨"User", [], 1, 3⟩]⟩
          ⟨"Post", [Field.mk "author" (.modelRef 1) 0 3 false [] Option.none [] Option.none], 0, 7⟩
          [1, 0, 7, 0, 0, 0, 7, 0, 0, 0, 0, 0, 1, 134, 159] []).2 "Post"
        = getTree ⟨fun _ => [], [1, 1]⟩ "Post" := by
  have h : ∃ fk ∈ collect_foreign_keys
          [1, 0, 7, 0, 0, 0, 7, 0, 0, 0, 0, 0, 1, 134, 159]
          [Field.mk "author" (.modelRef 1) 0 3 false [] Option.none [] Option.none]
          [] ⟨[⟨"Post", [Field.mk "author" (.modelRef 1) 0 3 false [] Option.none [] Option.none], 0, 7⟩,
              ⟨"User", [], 1, 3⟩]⟩,
        treeGet (getTree (⟨fun _ => [], [1, 1]⟩ : DBState) fk.model.name) fk.id = Option.none := by
    refine ⟨⟨⟨"User", [], 1, 3⟩,
      Field.mk "author" (.modelRef 1) 0 3 false [] Option.none [] Option.none,
      [0, 0, 0, 0, 0, 1, 134, 159]⟩, ?_, by simp [treeGet, getTree]⟩
    simp [collect_foreign_keys, get_foreign_keys, Field.derived_from, Field.ty,
      Field.offset_pos, get_value8, get_offset, readSlice, beBytesToNat, defaultModel]
  exact ⟨h,
    (insert_data_foreign_key_atomic ⟨fun _ => [], [1, 1]⟩ _ _ _ _ h).2 "Post"⟩

/-- C6 counterexample: the same failing insert as in the C5 witness
consumes an id — the `Post` counter is 1 before the call and 2 after, even
though the insert fails with `ForeignKeyViolation`, because `insert_data`
draws `next_id` before opening the transaction and checking foreign keys. -/
theorem insert_data_fk_failure_consumes_id_concrete :
    (insert_data ⟨fun _ => [], [1, 1]⟩
        ⟨[⟨"Post", [Field.mk "author" (.modelRef 1) 0 3 false [] Option.none [] Option.none], 0, 7⟩,
          ⟨"User", [], 1, 3⟩]⟩
        ⟨"Post", [Field.mk "author" (.modelRef 1) 0 3 false [] Option.none [] Option.none], 0, 7⟩
        [1, 0, 7, 0, 0, 0, 7, 0, 0, 0, 0, 0, 1, 134, 159] []).1
      = .error (.foreignKeyViolation "author" 99999)
    ∧ (insert_data ⟨fun _ => [], [1, 1]⟩
        ⟨[⟨"Post", [Field.mk "author" (.modelRef 1) 0 3 false [] Option.none [] Option.none], 0, 7⟩,
          ⟨"User", [], 1, 3⟩]⟩
        ⟨"Post", [Field.mk "author" (.modelRef 1) 0 3 false [] Option.none [] Option.none], 0, 7⟩
        [1, 0, 7, 0, 0, 0, 7, 0, 0, 0, 0, 0, 1, 134, 159] []).2.counters
      = [2, 1] := by
  constructor
  · simp [insert_data, next_idc, check_foreign_keys, collect_foreign_keys, get_foreign_keys,
      Field.derived_from, Field.ty, Field.offset_pos, Field.name, get_value8, get_offset,
      readSlice, beBytesToNat, treeGet, getTree, defaultModel]
  · simp [insert_data, next_idc, check_foreign_keys, collect_foreign_keys, get_foreign_keys,
      Field.derived_from, Field.ty, Field.offset_pos, Field.name, get_value8, get_offset,
      readSlice, beBytesToNat, treeGet, getTree, defaultModel]

/-- C6 (amended): id allocation happens before foreign-key verification —
an insert that fails the check returns the violation, leaves every tree
unchanged, but has already incremented the model's counter by one. -/
theorem insert_data_allocates_id_before_fk_check (db : DBState) (schema : Schema)
    (model : Model) (data : List Nat) (structs : List InsertStruct) (e : InsertError)
    (h : check_foreign_keys db (collect_foreign_keys data model.fields structs schema)
           = Option.some e) :
    (insert_data db schema model data structs).1 = .error e
    ∧ (insert_data db schema model data structs).2.counters
        = db.counters.set model.counter_idx (db.counters.getD model.counter_idx 0 + 1) := by
  have hc2 : check_foreign_keys
      ⟨db.trees, db.counters.set model.counter_idx (db.counters.getD model.counter_idx 0 + 1)⟩
      (collect_foreign_keys data model.fields structs schema) = Option.some e := by
    rw [check_foreign_keys_counters_invariant _ _ db.counters]
    exact h
  constructor
  · simp only [insert_data, next_idc]
    rw [hc2]
  · simp only [insert_data, next_idc]
    rw [hc2]

/-- C6 amended witness: the concrete failing `Post` insert of the
counterexample, run through the amended theorem. -/
theorem insert_data_allocates_id_before_fk_check_witness :
    (insert_data ⟨fun _ => [], [1, 1]⟩
        ⟨[⟨"Post", [Field.mk "author" (.modelRef 1) 0 3 false [] Option.none [] Option.none], 0, 7⟩,
          ⟨"User", [], 1, 3⟩]⟩
        ⟨"Post", [Field.mk "author" (.modelRef 1) 0 3 false [] Option.none [] Option.none], 0, 7⟩
        [1, 0, 7, 0, 0, 0, 7, 0, 0, 0, 0, 0, 1, 134, 159] []).2.counters
      = ([1, 1] : List Nat).set 0 (([1, 1] : List Nat).getD 0 0 + 1) :=
  (insert_data_allocates_id_before_fk_check ⟨fun _ => [], [1, 1]⟩
    ⟨[⟨"Post", [Field.mk "author" (.modelRef 1) 0 3 false [] Option.none [] Option.none], 0, 7⟩,
      ⟨"User", [], 1, 3⟩]⟩
    ⟨"Post", [Field.mk "author" (.modelRef 1) 0 3 false [] Option.none [] Option.none], 0, 7⟩
    [1, 0, 7, 0, 0, 0, 7, 0, 0, 0, 0, 0, 1, 134, 159] []
    (.foreignKeyViolation "author" 99999)
    (by simp [check_foreign_keys, collect_foreign_keys, get_foreign_keys,
      Field.derived_from, Field.ty, Field.offset_pos, Field.name, get_value8, get_offset,
      readSlice, beBytesToNat, treeGet, getTree, defaultModel])).2

/-! ## The bidirectional `ModelRefList` pair of claim C7

`model A { bs B[] }` / `model B { title String; as A[] @derived(A.bs) }`,
exactly as the resolver links it: each list field owns a `Direct` index on
its own tree and, through the `@derived` binding, a `Rev` index on the
partner tree. -/

def c7_bsField : Field :=
  .mk "bs" (.modelRefList 1) 0 0 false [.direct "A.bs", .rev "B.as"]
    (Option.some "A.bs") [] Option.none

def c7_asField : Field :=
  .mk "as" (.modelRefList 0) 0 0 false [.direct "B.as", .rev "A.bs"]
    (Option.some "B.as") [] (Option.some (0, 0))

def c7_titleField : Field :=
  .mk "title" (.primitive .string) 0 3 false [] Option.none [] Option.none

def c7_aModel : Model := ⟨"A", [c7_bsField], 0, 3⟩

def c7_bModel : Model := ⟨"B", [c7_titleField, c7_asField], 1, 7⟩

def c7_schema : Schema := ⟨[c7_aModel, c7_bModel]⟩

/-- State after `insert B {title:"x"}` (id 1) into the empty database. -/
def c7_st1 : DBState :=
  (insert_data ⟨fun _ => [], [1, 1]⟩ c7_schema c7_bModel [1, 0, 7, 0, 0, 0, 7, 120] []).2

/-- State after `insert A {bs:[{id:1}]}` (id 1). -/
def c7_st2 : DBState :=
  (insert_data c7_st1 c7_schema c7_aModel [1, 0, 3] [.connect c7_bsField 1 [1]]).2

/-- State after `update A 1 {bs:[]}` (disconnect everything). -/
def c7_st3 : DBState :=
  (db_update c7_st2 c7_schema c7_aModel 1 [1, 0, 3] [false] [.connect c7_bsField 1 []]).2

/-- C7 evaluated at its failing input: encoding `{bs:[{id:1}]}` produces
the `Connect` effect; after the connecting insert both join trees hold the
pair `(1,1)` (coherent); after the disconnecting update the Direct tree
`A.bs` is empty but the Rev tree `B.as` still holds `(1,1)` — the
claim's "`(a,b)` ∈ Direct iff `(b,a)` ∈ Rev" is violated, because
`remove_indexes` deletes the 8-byte scan suffixes from the rev tree whose
keys are 16 bytes. -/
theorem connect_update_leaves_stale_rev_entry :
    encode_document c7_aModel.fields 3
        (Json.obj [("bs", Json.arr [Json.obj [("id", Json.num 1)]])]) []
      = .ok ([1, 0, 3], [false], [.connect c7_bsField 1 [1]])
    ∧ getTree c7_st2 "A.bs" = [(make_key 1 1, [1])]
    ∧ getTree c7_st2 "B.as" = [(make_key 1 1, [1])]
    ∧ getTree c7_st3 "A.bs" = []
    ∧ getTree c7_st3 "B.as" = [(make_key 1 1, [1])] := by
  refine ⟨?_, by decide, by decide, by decide, by decide⟩
  simp [c7_aModel, c7_bsField, encode_document, encode_fields, collect_ids, jGet,
    listResize, natToBeBytes, Json.isNull, Json.get, Json.asU64, Field.name, Field.ty,
    Field.offset_index]

/-- Walking fields whose looked-up values are all explicit nulls of
primitive fields leaves the buffer and the struct accumulator untouched
(nulls only set mask bits). -/
theorem encode_fields_nulls (flds : List Field) (entries : List (String × Json))
    (buf : List Nat) (mask : List Bool) (structs : List InsertStruct)
    (h : ∀ f ∈ flds, ∀ v, jGet entries f.name = some v →
           v = Json.null ∧ ∃ p, f.ty = .primitive p) :
    ∃ mask2, encode_fields flds entries buf mask structs = .ok (buf, mask2, structs) := by
  induction flds generalizing mask with
  | nil => exact ⟨mask, by rw [encode_fields]⟩
  | cons field rest ih =>
    have hrest : ∀ f ∈ rest, ∀ v, jGet entries f.name = some v →
        v = Json.null ∧ ∃ p, f.ty = .primitive p :=
      fun f hf => h f (List.mem_cons_of_mem field hf)
    rw [encode_fields]
    split
    · exact ih mask hrest
    · rename_i v hv
      obtain ⟨hvnull, p, hp⟩ := h field (List.mem_cons_self field rest) v hv
      subst hvnull
      obtain ⟨mask2, hm⟩ := ih (mask.set field.offset_index true) hrest
      refine ⟨mask2, ?_⟩
      simp only [Json.isNull, if_true]
      rw [hp]
      exact hm

/-- C10: `encode_document` fails with `EmptyObject` on every object whose
provided model fields are all explicit nulls of primitive fields — the
nulls set change-mask bits but append no payload bytes and create no
struct side effects, so a pure clear-to-null update cannot be encoded. -/
theorem encode_nulls_only_gives_empty_object (fields : List Field) (payload_offset : Nat)
    (entries : List (String × Json))
    (h : ∀ f ∈ fields, ∀ v, jGet entries f.name = some v →
           v = Json.null ∧ ∃ p, f.ty = .primitive p) :
    encode_document fields payload_offset (Json.obj entries) [] = .error .emptyObject := by
  obtain ⟨mask2, hm⟩ :=
    encode_fields_nulls fields entries
      (listResize (1 :: natToBeBytes 2 (payload_offset % 2 ^ 16)) payload_offset)
      (List.replicate ((((fields.map Field.offset_index).max?).getD 0) + 1) false) [] h
  rw [encode_document]
  rw [hm]
  simp

/-- C10 witness: the null-only update `{name: null}` on the `User` model
is rejected with `EmptyObject`. -/
theorem encode_nulls_only_gives_empty_object_witness :
    encode_document userFields 15 (Json.obj [("name", Json.null)]) []
      = .error .emptyObject :=
  encode_nulls_only_gives_empty_object userFields 15 [("name", Json.null)]
    (by
      intro f hf v hv
      fin_cases hf <;>
        simp_all [jGet, userFields, Field.name, Field.ty] <;>
        exact ⟨.string, rfl⟩)

/-! ## Change-mask fidelity (claim C4) -/

/-- When the encoder walk sets the change bit of a field holding `v`:
always for `Primitive` and `ModelRef` values, for the explicit null of any
field that is not `Struct`/`StructList`/`ModelRefList`; never for
`Struct`, `StructList`, `ModelRefList` values, and never for non-null
values of the remaining kinds. -/
def sets_change_bit (f : Field) (v : Json) : Prop :=
  (v = Json.null ∧
    match f.ty with
    | .struct _ | .structList _ _ | .modelRefList _ => False
    | _ => True)
  ∨ (v ≠ Json.null ∧
    match f.ty with
    | .primitive _ | .modelRef _ => True
    | _ => False)

/-- The field walk justifying bit `i` of the change mask: some field with
`offset_index = i` whose name is a key of the object, with a bit-setting
value. -/
def mask_source (flds : List Field) (entries : List (String × Json)) (i : Nat) : Prop :=
  ∃ f ∈ flds, f.offset_index = i ∧ ∃ v, jGet entries f.name = some v ∧ sets_change_bit f v

theorem mask_source_nil (entries : List (String × Json)) (i : Nat) :
    ¬ mask_source [] entries i := by simp [mask_source]

theorem mask_source_cons {field : Field} {rest : List Field}
    {entries : List (String × Json)} {i : Nat} :
    mask_source (field :: rest) entries i ↔
      ((field.offset_index = i ∧ ∃ v, jGet entries field.name = some v ∧ sets_change_bit field v)
        ∨ mask_source rest entries i) := by
  simp only [mask_source, List.mem_cons]
  constructor
  · rintro ⟨f, rfl | hf, rest⟩
    · exact Or.inl rest
    · exact Or.inr ⟨f, hf, rest⟩
  · rintro (h | ⟨f, hf, hrest⟩)
    · exact ⟨field, Or.inl rfl, h⟩
    · exact ⟨f, Or.inr hf, hrest⟩

/-- Membership bounds the defaulted maximum. -/
theorem mem_le_maxD (l : List Nat) (a : Nat) (h : a ∈ l) : a ≤ (l.max?).getD 0 := by
  induction l with
  | nil => simp at h
  | cons b rest ih =>
    rcases List.mem_cons.mp h with rfl | hr
    · cases hm : rest.max? with
      | none => simp [List.max?_cons, hm]
      | some m =>
        simp [List.max?_cons, hm] <;> omega
    · have := ih hr
      cases hm : rest.max? with
      | none => rw [List.max?_eq_none_iff] at hm; subst hm; simp at hr
      | some m =>
        simp [List.max?_cons, hm] at this ⊢
        omega

/-- `getD` through `List.set` at a fresh `true` bit. -/
theorem getD_set_true_iff (mask : List Bool) (j i : Nat) (hj : j < mask.length) :
    ((mask.set j true).getD i false = true) ↔ (i = j ∨ mask.getD i false = true) := by
  by_cases hij : i = j
  · subst hij
    simp [List.getD, List.getElem?_set_self, hj]
  · simp [List.getD, List.getElem?_set_ne (by omega : j ≠ i), hij]

/-- The replicate-false mask has no set bits. -/
theorem getD_replicate_false (n i : Nat) :
    (List.replicate n false).getD i false = false := by
  by_cases h : i < n
  · simp [List.getD, List.getElem?_replicate, h]
  · have : (List.replicate n false).length ≤ i := by
      simp
      omega
    simp [List.getD, List.getElem?_eq_none this]

/-- Characterization of the change mask computed by the field walk: a bit
ends up set exactly when it came in set or some remaining field justifies
it. -/
theorem encode_fields_mask_spec (flds : List Field) (entries : List (String × Json))
    (buf : List Nat) (mask : List Bool) (structs : List InsertStruct)
    (buf2 : List Nat) (mask2 : List Bool) (structs2 : List InsertStruct)
    (hlen : ∀ f ∈ flds, f.offset_index < mask.length)
    (henc : encode_fields flds entries buf mask structs = .ok (buf2, mask2, structs2)) :
    mask2.length = mask.length ∧
    ∀ i, mask2.getD i false = true ↔
      (mask.getD i false = true ∨ mask_source flds entries i) := by
  induction flds generalizing buf mask structs with
  | nil =>
    rw [encode_fields] at henc
    injection henc with h1
    injection h1 with hb hrest
    injection hrest with hm hs
    subst hm
    exact ⟨rfl, fun i => by simp [mask_source_nil]⟩
  | cons field rest ih =>
    have hlen_rest : ∀ f ∈ rest, f.offset_index < mask.length :=
      fun f hf => hlen f (List.mem_cons_of_mem field hf)
    have hlen_field : field.offset_index < mask.length :=
      hlen field (List.mem_cons_self field rest)
    rw [encode_fields] at henc
    -- helper facts for the two recursion shapes
    have skip_step : ∀ {b s}, encode_fields rest entries b mask s = .ok (buf2, mask2, structs2) →
        (∀ v, jGet entries field.name = some v → ¬ sets_change_bit field v) →
        mask2.length = mask.length ∧
        ∀ i, mask2.getD i false = true ↔
          (mask.getD i false = true ∨ mask_source (field :: rest) entries i) := by
      intro b s he hnot
      obtain ⟨hl, hch⟩ := ih b mask s hlen_rest he
      refine ⟨hl, fun i => ?_⟩
      rw [hch i, mask_source_cons]
      constructor
      · rintro (h | h)
        · exact Or.inl h
        · exact Or.inr (Or.inr h)
      · rintro (h | ⟨hoi, v, hv, hscb⟩ | h)
        · exact Or.inl h
        · exact absurd hscb (hnot v hv)
        · exact Or.inr h
    have set_step : ∀ {b s} {v : Json},
        encode_fields rest entries b (mask.set field.offset_index true) s
            = .ok (buf2, mask2, structs2) →
        jGet entries field.name = some v → sets_change_bit field v →
        mask2.length = mask.length ∧
        ∀ i, mask2.getD i false = true ↔
          (mask.getD i false = true ∨ mask_source (field :: rest) entries i) := by
      intro b s v he hv hscb
      have hlen2 : ∀ f ∈ rest, f.offset_index < (mask.set field.offset_index true).length := by
        simpa using hlen_rest
      obtain ⟨hl, hch⟩ := ih b (mask.set field.offset_index true) s hlen2 he
      refine ⟨by simpa using hl, fun i => ?_⟩
      rw [hch i, getD_set_true_iff mask field.offset_index i hlen_field, mask_source_cons]
      constructor
      · rintro ((rfl | h) | h)
        · exact Or.inr (Or.inl ⟨rfl, v, hv, hscb⟩)
        · exact Or.inl h
        · exact Or.inr (Or.inr h)
      · rintro (h | ⟨hoi, hv2⟩ | h)
        · exact Or.inl (Or.inr h)
        · exact Or.inl (Or.inl hoi.symm)
        · exact Or.inr h
    revert henc
    split
    · -- jGet = none: skip
      intro henc
      rename_i hv0
      exact skip_step henc (fun v hv => by rw [hv0] at hv; cases hv)
    · rename_i v hv0
      by_cases hnull : v.isNull = true
      · have hveq : v = Json.null := by
          cases v <;> simp [Json.isNull] at hnull ⊢
        subst hveq
        rw [if_pos (by simp [Json.isNull])]
        split
        · -- struct: InsertStruct.none pushed, no bit
          intro henc
          rename_i st hty
          refine skip_step henc (fun v2 hv2 => ?_)
          rw [hv0] at hv2
          injection hv2 with hv2
          subst hv2
          simp [sets_change_bit, hty]
        · intro henc
          cases henc
        · intro henc
          cases henc
        · -- null of any other kind: bit set
          intro henc
          rename_i hns hnsl hnml
          refine set_step henc hv0 ?_
          left
          refine ⟨rfl, ?_⟩
          cases hty : field.ty with
          | struct st => exact absurd hty (by intro hc; exact hns st hc)
          | structList st ci => exact absurd hty (by intro hc; exact hnsl st ci hc)
          | modelRefList mi => exact absurd hty (by intro hc; exact hnml mi hc)
          | _ => simp
      · rw [if_neg hnull]
        have hvne : v ≠ Json.null := by
          intro hc
          subst hc
          simp [Json.isNull] at hnull
        split
        · -- primitive
          rename_i p hty
          split
          · intro henc
            cases henc
          · intro henc
            exact set_step henc hv0 (Or.inr ⟨hvne, by simp [sets_change_bit, hty]⟩)
        · -- modelRef
          rename_i mi hty
          split
          · intro henc
            cases henc
          · split
            · intro henc
              cases henc
            · split
              · intro henc
                cases henc
              · intro henc
                exact set_step henc hv0 (Or.inr ⟨hvne, by simp [sets_change_bit, hty]⟩)
        · -- modelRefList
          rename_i mi hty
          cases v with
          | arr items =>
            intro henc
            have henc2 : (match collect_ids items field.name 0 with
                | Except.error e => (Except.error e : Except EncodeError EncState)
                | Except.ok ids =>
                  encode_fields rest entries buf mask
                    (structs ++ [InsertStruct.connect field mi ids]))
                  = Except.ok (buf2, mask2, structs2) := henc
            clear henc
            cases hc : collect_ids items field.name 0 with
            | error e =>
              rw [hc] at henc2
              simp at henc2
            | ok ids =>
              rw [hc] at henc2
              refine skip_step henc2 (fun v2 hv2 => ?_)
              rw [hv0] at hv2
              injection hv2 with hv2
              subst hv2
              simp [sets_change_bit, hty]
          | null => intro henc; simp at henc
          | bool b2 => intro henc; simp at henc
          | num n2 => intro henc; simp at henc
          | str s2 => intro henc; simp at henc
          | obj o2 => intro henc; simp at henc
        · -- struct
          rename_i st hty
          split
          · intro henc
            cases henc
          · intro henc
            refine skip_step henc (fun v2 hv2 => ?_)
            rw [hv0] at hv2
            injection hv2 with hv2
            subst hv2
            simp [sets_change_bit, hty, hvne]
        · -- structList
          rename_i st ci hty
          cases v with
          | arr items =>
            intro henc
            have henc2 : (if items.length = 0 then
                  encode_fields rest entries buf mask (structs ++ [InsertStruct.empty st])
                else
                  match encode_many st items structs with
                  | Except.error e => (Except.error e : Except EncodeError EncState)
                  | Except.ok (vec_many, structsY) =>
                    encode_fields rest entries buf mask
                      (structsY ++ [InsertStruct.many st ci vec_many]))
                  = Except.ok (buf2, mask2, structs2) := henc
            clear henc
            by_cases hn0 : items.length = 0
            · rw [if_pos hn0] at henc2
              refine skip_step henc2 (fun v2 hv2 => ?_)
              rw [hv0] at hv2
              injection hv2 with hv2
              subst hv2
              simp [sets_change_bit, hty]
            · rw [if_neg hn0] at henc2
              cases hm : encode_many st items structs with
              | error e =>
                rw [hm] at henc2
                simp at henc2
              | ok pair =>
                rw [hm] at henc2
                obtain ⟨vec_many, structsX⟩ := pair
                refine skip_step henc2 (fun v2 hv2 => ?_)
                rw [hv0] at hv2
                injection hv2 with hv2
                subst hv2
                simp [sets_change_bit, hty]
          | null => intro henc; simp at henc
          | bool b2 => intro henc; simp at henc
          | num n2 => intro henc; simp at henc
          | str s2 => intro henc; simp at henc
          | obj o2 => intro henc; simp at henc
        · -- remaining kinds (primitiveList, modelRefDerived): no bit
          intro henc
          rename_i hnp hnr hnrl hns hnsl
          refine skip_step henc (fun v2 hv2 => ?_)
          rw [hv0] at hv2
          injection hv2 with hv2
          subst hv2
          intro hscb
          rcases hscb with ⟨hc, _⟩ | ⟨_, hc⟩
          · exact hvne hc
          · revert hc
            cases hty : field.ty with
            | primitive p => exact absurd hty (by intro h2; exact hnp p h2)
            | modelRef mi => exact absurd hty (by intro h2; exact hnr mi h2)
            | _ => simp

/-- C4 (amended): after a successful `encode_document(model, partial)`,
bit `i` of the returned change mask is set exactly when some field with
`offset_index = i` has its name as a key of the partial object with a
bit-setting value — any value (null included) for `Primitive` and
`ModelRef` fields, an explicit null for the other non-relational kinds;
keys holding `Struct`, `StructList` or `ModelRefList` values never set a
bit (their effects travel through the struct accumulator), and fields
absent from the object never set a bit. -/
theorem encode_change_mask_characterization (fields : List Field) (payload_offset : Nat)
    (entries : List (String × Json)) (buf : List Nat) (mask : List Bool)
    (structs2 : List InsertStruct)
    (henc : encode_document fields payload_offset (Json.obj entries) []
        = .ok (buf, mask, structs2)) :
    ∀ i, mask.getD i false = true ↔ mask_source fields entries i := by
  rw [encode_document] at henc
  have henc2 : (match encode_fields fields entries
        (listResize (1 :: natToBeBytes 2 (payload_offset % 2 ^ 16)) payload_offset)
        (List.replicate ((((fields.map Field.offset_index).max?).getD 0) + 1) false) [] with
      | Except.error e => (Except.error e : Except EncodeError EncState)
      | Except.ok (buf3, mask3, structs3) =>
        if buf3.length
              = (listResize (1 :: natToBeBytes 2 (payload_offset % 2 ^ 16)) payload_offset).length
            ∧ structs3.length = 0
        then Except.error EncodeError.emptyObject
        else Except.ok (buf3, mask3, structs3))
      = Except.ok (buf, mask, structs2) := henc
  clear henc
  cases he : encode_fields fields entries
      (listResize (1 :: natToBeBytes 2 (payload_offset % 2 ^ 16)) payload_offset)
      (List.replicate ((((fields.map Field.offset_index).max?).getD 0) + 1) false) [] with
  | error e =>
    rw [he] at henc2
    simp at henc2
  | ok triple =>
    obtain ⟨buf3, mask3, structs3⟩ := triple
    rw [he] at henc2
    have henc3 : (if buf3.length
            = (listResize (1 :: natToBeBytes 2 (payload_offset % 2 ^ 16)) payload_offset).length
          ∧ structs3.length = 0
        then (Except.error EncodeError.emptyObject : Except EncodeError EncState)
        else Except.ok (buf3, mask3, structs3)) = Except.ok (buf, mask, structs2) := henc2
    clear henc2
    by_cases hco : buf3.length
          = (listResize (1 :: natToBeBytes 2 (payload_offset % 2 ^ 16)) payload_offset).length
        ∧ structs3.length = 0
    · rw [if_pos hco] at henc3
      simp at henc3
    · rw [if_neg hco] at henc3
      injection henc3 with henc4
      injection henc4 with hb hrest
      injection hrest with hm hs
      subst hb hm hs
      have hlen : ∀ f ∈ fields, f.offset_index
          < (List.replicate ((((fields.map Field.offset_index).max?).getD 0) + 1) false).length := by
        intro f hf
        have : f.offset_index ≤ (((fields.map Field.offset_index).max?).getD 0) :=
          mem_le_maxD _ _ (List.mem_map_of_mem Field.offset_index hf)
        simp
        omega
      obtain ⟨hl, hch⟩ := encode_fields_mask_spec fields entries _ _ _ _ _ _ hlen he
      intro i
      rw [hch i]
      simp [getD_replicate_false]

/-- The embedded struct field pair of the C4 counterexample:
`model U { uname String; profile P }` with `struct P { x Int }`. -/
def c4_xField : Field := .mk "x" (.primitive .int64) 0 3 false [] Option.none [] Option.none

def c4_struct : Struct := .mk "U.profile" [c4_xField] 7

def c4_unameField : Field := .mk "uname" (.primitive .string) 0 3 false [] Option.none [] Option.none

def c4_profileField : Field := .mk "profile" (.struct c4_struct) 1 7 false [] Option.none [] Option.none

def c4_fields : List Field := [c4_unameField, c4_profileField]

/-- C4 counterexample: the partial object `{profile: {x: 5}}` keys the
`Struct` field `profile` (offset_index 1), the encode succeeds, yet the
returned change mask is `[false, false]` — the bit at offset_index 1 is
NOT set, contradicting the claim that a bit is set exactly when the
field's name is a key of the partial object. -/
theorem change_mask_clear_for_present_struct_key :
    encode_document c4_fields 11 (Json.obj [("profile", Json.obj [("x", Json.num 5)])]) []
      = .ok ([1, 0, 11, 0, 0, 0, 0, 0, 0, 0, 0], [false, false],
             [.one c4_struct [true] [1, 0, 7, 0, 0, 0, 7, 0, 0, 0, 0, 0, 0, 0, 5]])
    ∧ (jGet [("profile", Json.obj [("x", Json.num 5)])] "profile").isSome = true
    ∧ c4_profileField.offset_index = 1
    ∧ ([false, false] : List Bool).getD 1 false = false := by
  refine ⟨?_, by decide, by decide, by decide⟩
  simp [c4_fields, c4_unameField, c4_profileField, c4_struct, c4_xField, encode_document,
    encode_fields, encode_value, jGet, listResize, natToBeBytes, writeSlice, readSlice,
    Json.isNull, Field.name, Field.ty, Field.offset_index, Field.offset_pos, intToBeBytes,
    Struct.fields, Struct.payload_offset, Struct.name]
  decide

/-- C4 witness: the amended characterization applied to the `User` model
and the partial `{name:"Bob"}` at bit 0. -/
theorem encode_change_mask_characterization_witness :
    ([true, false, false] : List Bool).getD 0 false = true ↔
      mask_source userFields [("name", Json.str [66, 111, 98])] 0 :=
  encode_change_mask_characterization userFields 15 [("name", Json.str [66, 111, 98])]
    [1, 0, 15, 0, 0, 0, 15, 0, 0, 0, 0, 0, 0, 0, 0, 66, 111, 98] [true, false, false] []
    (by
      simp [userFields, encode_document, encode_fields, encode_value, jGet, listResize,
        natToBeBytes, writeSlice, readSlice, Json.isNull, Field.name, Field.ty,
        Field.offset_index, Field.offset_pos])
    0

/-! ## Byte-level lemmas for the update-engine invariant (claim C2) -/

theorem natToBeBytes_length (w v : Nat) : (natToBeBytes w v).length = w := by
  induction w generalizing v with
  | zero => rfl
  | succ w ih => simp [natToBeBytes, ih]

theorem beBytesToNat_append_one (l : List Nat) (b : Nat) :
    beBytesToNat (l ++ [b]) = beBytesToNat l * 256 + b := by
  simp [beBytesToNat, List.foldl_append]

theorem beBytesToNat_natToBeBytes (w v : Nat) :
    beBytesToNat (natToBeBytes w v) = v % 256 ^ w := by
  induction w generalizing v with
  | zero => simp [natToBeBytes, beBytesToNat, Nat.mod_one]
  | succ w ih =>
    rw [natToBeBytes, beBytesToNat_append_one, ih]
    rw [pow_succ', Nat.mod_mul]
    ring

theorem readSlice_length (data : List Nat) (pos len : Nat) (h : pos + len ≤ data.length) :
    (readSlice data pos len).length = len := by
  simp [readSlice]
  omega

theorem writeSlice_length (data src : List Nat) (pos : Nat)
    (h : pos + src.length ≤ data.length) :
    (writeSlice data pos src).length = data.length := by
  simp [writeSlice]
  omega

theorem listResize_length (data : List Nat) (m : Nat) : (listResize data m).length = m := by
  by_cases h : m ≤ data.length <;> simp [listResize, h] <;> omega

theorem readSlice_writeSlice_before (data src : List Nat) (pos q len : Nat)
    (hin : pos ≤ data.length) (h : q + len ≤ pos) :
    readSlice (writeSlice data pos src) q len = readSlice data q len := by
  simp only [readSlice, writeSlice]
  rw [List.drop_append_of_le_length (by simp; omega),
      List.drop_append_of_le_length (by simp; omega)]
  rw [List.take_append_of_le_length (by simp; omega),
      List.take_append_of_le_length (by simp; omega)]
  rw [List.drop_take, List.take_take]
  congr 1
  omega

theorem readSlice_writeSlice_after (data src : List Nat) (pos q len : Nat)
    (hin : pos + src.length ≤ data.length) (h : pos + src.length ≤ q) :
    readSlice (writeSlice data pos src) q len = readSlice data q len := by
  simp only [readSlice, writeSlice]
  have h1 : q = (List.take pos data ++ src).length + (q - pos - src.length) := by
    simp
    omega
  nth_rewrite 1 [h1]
  rw [List.drop_append]
  rw [List.drop_drop]
  congr 2
  omega

theorem readSlice_writeSlice_self (data src : List Nat) (pos : Nat)
    (hin : pos + src.length ≤ data.length) :
    readSlice (writeSlice data pos src) pos src.length = src := by
  simp only [readSlice, writeSlice]
  rw [List.drop_append_of_le_length (by simp; omega),
      List.drop_append_of_le_length (by simp; omega)]
  rw [List.drop_eq_nil_of_le (by simp)]
  simp

theorem readSlice_append_right (data ext : List Nat) (q len : Nat)
    (h : q + len ≤ data.length) :
    readSlice (data ++ ext) q len = readSlice data q len := by
  simp only [readSlice]
  rw [List.drop_append_of_le_length (by omega)]
  rw [List.take_append_of_le_length (by simp; omega)]

theorem readSlice_take (data : List Nat) (m q len : Nat) (h : q + len ≤ m) :
    readSlice (data.take m) q len = readSlice data q len := by
  simp only [readSlice]
  rw [List.drop_take, List.take_take]
  congr 1
  omega

theorem readSlice_listResize (data : List Nat) (m q len : Nat)
    (h1 : q + len ≤ m) (h2 : q + len ≤ data.length) :
    readSlice (listResize data m) q len = readSlice data q len := by
  by_cases hm : m ≤ data.length
  · simp only [listResize, if_pos hm]
    exact readSlice_take data m q len h1
  · simp only [listResize, if_neg hm]
    exact readSlice_append_right data _ q len h2

theorem get_offset_writeSlice_before (data src : List Nat) (pos q : Nat)
    (hin : pos ≤ data.length) (h : q + 4 ≤ pos) :
    get_offset (writeSlice data pos src) q = get_offset data q := by
  rw [get_offset, get_offset, readSlice_writeSlice_before data src pos q 4 hin h]

theorem get_offset_writeSlice_after (data src : List Nat) (pos q : Nat)
    (hin : pos + src.length ≤ data.length) (h : pos + src.length ≤ q) :
    get_offset (writeSlice data pos src) q = get_offset data q := by
  rw [get_offset, get_offset, readSlice_writeSlice_after data src pos q 4 hin h]

theorem get_offset_set_offset_self (data : List Nat) (pos v : Nat)
    (hin : pos + 4 ≤ data.length) :
    get_offset (set_offset data pos v) pos = v % 2 ^ 32 := by
  rw [get_offset, set_offset]
  have h4 : (natToBeBytes 4 (v % 2 ^ 32)).length = 4 := natToBeBytes_length 4 _
  have hs := readSlice_writeSlice_self data (natToBeBytes 4 (v % 2 ^ 32)) pos
    (by rw [h4]; omega)
  rw [h4] at hs
  rw [hs, beBytesToNat_natToBeBytes]
  have hlt : v % 2 ^ 32 < 256 ^ 4 := by
    have : v % 2 ^ 32 < 2 ^ 32 := Nat.mod_lt v (by norm_num)
    norm_num
    omega
  exact Nat.mod_eq_of_lt hlt

theorem set_offset_length (data : List Nat) (pos v : Nat) (hin : pos + 4 ≤ data.length) :
    (set_offset data pos v).length = data.length := by
  rw [set_offset]
  rw [writeSlice_length data _ pos (by rw [natToBeBytes_length]; omega)]

theorem get_offset_set_offset_other (data : List Nat) (pos v q : Nat)
    (hin : pos + 4 ≤ data.length) (h : q + 4 ≤ pos ∨ pos + 4 ≤ q) :
    get_offset (set_offset data pos v) q = get_offset data q := by
  rw [set_offset]
  rcases h with h | h
  · exact get_offset_writeSlice_before data _ pos q (by omega) h
  · exact get_offset_writeSlice_after data _ pos q
      (by rw [natToBeBytes_length]; omega) (by rw [natToBeBytes_length]; omega)

theorem get_offset_set_offset_null_self (data : List Nat) (pos : Nat)
    (hin : pos + 4 ≤ data.length) :
    get_offset (set_offset_null data pos) pos = 0 := by
  rw [get_offset, set_offset_null]
  have hs := readSlice_writeSlice_self data [0, 0, 0, 0] pos (by simp; omega)
  simp only [List.length_cons, List.length_nil] at hs
  rw [hs]
  rfl

theorem get_offset_set_offset_null_other (data : List Nat) (pos q : Nat)
    (hin : pos + 4 ≤ data.length) (h : q + 4 ≤ pos ∨ pos + 4 ≤ q) :
    get_offset (set_offset_null data pos) q = get_offset data q := by
  rw [set_offset_null]
  rcases h with h | h
  · exact get_offset_writeSlice_before data _ pos q (by omega) h
  · exact get_offset_writeSlice_after data _ pos q
      (by simp only [List.length_cons, List.length_nil]; omega)
      (by simp only [List.length_cons, List.length_nil]; omega)

theorem set_offset_null_length (data : List Nat) (pos : Nat) (hin : pos + 4 ≤ data.length) :
    (set_offset_null data pos).length = data.length := by
  rw [set_offset_null]
  rw [writeSlice_length data _ pos (by simp; omega)]

/-! ## The header invariant of claim C2 -/

/-- The layout invariant of an `n`-slot document header: the buffer covers
the header, every non-zero offset points between the end of the header and
the end of the buffer, and the non-zero offsets are monotone
non-decreasing in slot order. -/
def header_inv (data : List Nat) (n : Nat) : Prop :=
  3 + 4 * n ≤ data.length ∧
  (∀ k, k < n → get_offset data (3 + 4 * k) ≠ 0 →
     3 + 4 * n ≤ get_offset data (3 + 4 * k) ∧ get_offset data (3 + 4 * k) ≤ data.length) ∧
  (∀ j k, j ≤ k → k < n → get_offset data (3 + 4 * j) ≠ 0 → get_offset data (3 + 4 * k) ≠ 0 →
     get_offset data (3 + 4 * j) ≤ get_offset data (3 + 4 * k))

/-! ## Characterizing `get_end` -/

theorem get_end_from_all_zero (data : List Nat) (c : Nat) :
    ∀ a, (∀ i, i < c → get_offset data (3 + 4 * (a + i)) = 0) →
      get_end_from data (3 + 4 * a) c = data.length := by
  induction c with
  | zero => intro a _; rfl
  | succ c ih =>
    intro a h
    rw [get_end_from]
    have h0 : get_offset data (3 + 4 * a) = 0 := by
      have := h 0 (by omega)
      simpa using this
    simp only [h0, ne_eq, not_true_eq_false, if_false, ite_false]
    have harith : 3 + 4 * a + 4 = 3 + 4 * (a + 1) := by omega
    rw [harith]
    exact ih (a + 1) (fun i hi => by
      have := h (i + 1) (by omega)
      rwa [show a + (i + 1) = a + 1 + i by omega] at this)

theorem get_end_from_first_nonzero (data : List Nat) (j : Nat) :
    ∀ a c, j < c → get_offset data (3 + 4 * (a + j)) ≠ 0 →
      (∀ i, i < j → get_offset data (3 + 4 * (a + i)) = 0) →
      get_end_from data (3 + 4 * a) c = get_offset data (3 + 4 * (a + j)) := by
  induction j with
  | zero =>
    intro a c hc hnz _
    obtain ⟨c2, rfl⟩ : ∃ c2, c = c2 + 1 := ⟨c - 1, by omega⟩
    rw [get_end_from]
    simp only [show a + 0 = a by omega] at hnz
    simp [hnz]
  | succ j ih =>
    intro a c hc hnz hmin
    obtain ⟨c2, rfl⟩ : ∃ c2, c = c2 + 1 := ⟨c - 1, by omega⟩
    rw [get_end_from]
    have h0 : get_offset data (3 + 4 * a) = 0 := by
      have := hmin 0 (by omega)
      simpa using this
    simp only [h0, ne_eq, not_true_eq_false, if_false, ite_false]
    have harith : 3 + 4 * a + 4 = 3 + 4 * (a + 1) := by omega
    rw [harith]
    rw [ih (a + 1) c2 (by omega) (by rwa [show a + 1 + j = a + (j + 1) by omega])
      (fun i hi => by
        have := hmin (i + 1) (by omega)
        rwa [show a + (i + 1) = a + 1 + i by omega] at this)]
    congr 1
    omega

theorem get_end_eq_from (data : List Nat) (k n : Nat) (hk : k < n) :
    get_end data (3 + 4 * k) (3 + 4 * n) = get_end_from data (3 + 4 * (k + 1)) (n - k - 1) := by
  rw [get_end]
  congr 1 <;> omega

/-- Workhorse: under the invariant, the end of slot `k` is either the
buffer length (no live slot after `k`) or the offset of the first live
slot after `k`. -/
theorem dend_cases (data : List Nat) (n k : Nat) (hk : k < n) :
    (get_end data (3 + 4 * k) (3 + 4 * n) = data.length
       ∧ ∀ j, k < j → j < n → get_offset data (3 + 4 * j) = 0)
    ∨ (∃ jp, k < jp ∧ jp < n ∧ get_offset data (3 + 4 * jp) ≠ 0
        ∧ get_end data (3 + 4 * k) (3 + 4 * n) = get_offset data (3 + 4 * jp)
        ∧ ∀ i, k < i → i < jp → get_offset data (3 + 4 * i) = 0) := by
  by_cases hex : ∃ j, k < j ∧ j < n ∧ get_offset data (3 + 4 * j) ≠ 0
  · right
    have hjp : k < Nat.find hex ∧ Nat.find hex < n
        ∧ get_offset data (3 + 4 * Nat.find hex) ≠ 0 := Nat.find_spec hex
    have hmin : ∀ i, k < i → i < Nat.find hex → get_offset data (3 + 4 * i) = 0 := by
      intro i h1 h2
      by_contra hc
      exact Nat.find_min hex h2 ⟨h1, by omega, hc⟩
    refine ⟨Nat.find hex, hjp.1, hjp.2.1, hjp.2.2, ?_, hmin⟩
    rw [get_end_eq_from data k n hk]
    have hrw : k + 1 + (Nat.find hex - (k + 1)) = Nat.find hex := by omega
    have := get_end_from_first_nonzero data (Nat.find hex - (k + 1)) (k + 1) (n - k - 1)
      (by omega)
      (by rw [hrw]; exact hjp.2.2)
      (fun i hi => hmin (k + 1 + i) (by omega) (by omega))
    rwa [hrw] at this
  · left
    constructor
    · rw [get_end_eq_from data k n hk]
      exact get_end_from_all_zero data (n - k - 1) (k + 1) (fun i hi => by
        by_contra hc
        exact hex ⟨k + 1 + i, by omega, by omega, hc⟩)
    · intro j h1 h2
      by_contra hc
      exact hex ⟨j, h1, h2, hc⟩

/-- `shift_and_resize` adjusts the length by `diff` and never touches the
bytes strictly before `min frm tgt` — in particular the header. -/
theorem shift_and_resize_spec (data : List Nat) (frm tgt : Nat) (diff : Int)
    (hfrm : frm ≤ data.length) (htgt : (tgt : Int) = (frm : Int) + diff) :
    (shift_and_resize data frm tgt diff).length = ((data.length : Int) + diff).toNat
    ∧ ∀ q, q + 4 ≤ frm → q + 4 ≤ tgt →
        get_offset (shift_and_resize data frm tgt diff) q = get_offset data q := by
  simp only [shift_and_resize]
  split_ifs with h1 h2
  · -- frm = data.length: pure resize
    refine ⟨listResize_length data _, fun q hq1 hq2 => ?_⟩
    rw [get_offset, get_offset]
    rw [readSlice_listResize data _ q 4 (by omega) (by omega)]
  · -- grow
    have hsrc : (readSlice data frm (data.length - frm)).length = data.length - frm :=
      readSlice_length data frm _ (by omega)
    have hdlen : (listResize data ((data.length : Int) + diff).toNat).length
        = ((data.length : Int) + diff).toNat := listResize_length data _
    have harith : tgt + (data.length - frm) = ((data.length : Int) + diff).toNat := by
      omega
    constructor
    · rw [writeSlice_length _ _ _ (by rw [hsrc, hdlen]; omega)]
      exact hdlen
    · intro q hq1 hq2
      rw [get_offset_writeSlice_before _ _ tgt q (by rw [hdlen]; omega) hq2]
      rw [get_offset, get_offset]
      rw [readSlice_listResize data _ q 4 (by omega) (by omega)]
  · -- shrink (diff ≤ 0, frm < data.length)
    have hfrm2 : frm < data.length := by omega
    have hsrc : (readSlice data frm (data.length - frm)).length = data.length - frm :=
      readSlice_length data frm _ (by omega)
    have harith : tgt + (data.length - frm) = ((data.length : Int) + diff).toNat := by
      omega
    have hwlen : (writeSlice data tgt (readSlice data frm (data.length - frm))).length
        = data.length := by
      rw [writeSlice_length _ _ _ (by rw [hsrc]; omega)]
    constructor
    · rw [List.length_take, hwlen]
      omega
    · intro q hq1 hq2
      rw [get_offset, get_offset]
      rw [readSlice_take _ _ q 4 (by omega)]
      rw [readSlice_writeSlice_before data _ tgt q 4 (by omega) hq2]

/-- The `move_offsets` scan: length preserved, every non-zero slot in the
window shifted by `diff` (w32 wrap), everything outside untouched. -/
theorem move_offsets_from_spec (diff : Int) (c : Nat) :
    ∀ (data : List Nat) (a : Nat),
      3 + 4 * (a + c) ≤ data.length →
      (move_offsets_from diff data (3 + 4 * a) c).length = data.length
      ∧ (∀ i, i < c →
          get_offset (move_offsets_from diff data (3 + 4 * a) c) (3 + 4 * (a + i))
            = if get_offset data (3 + 4 * (a + i)) = 0 then 0
              else (((get_offset data (3 + 4 * (a + i)) : Int) + diff).emod (2 ^ 32)).toNat)
      ∧ (∀ q, q + 4 ≤ 3 + 4 * a ∨ 3 + 4 * (a + c) ≤ q →
          get_offset (move_offsets_from diff data (3 + 4 * a) c) q = get_offset data q) := by
  induction c with
  | zero =>
    intro data a hb
    refine ⟨rfl, fun i hi => by omega, fun q hq => rfl⟩
  | succ c ih =>
    intro data a hb
    rw [move_offsets_from]
    by_cases h0 : get_offset data (3 + 4 * a) = 0
    · simp only [h0, ne_eq, not_true_eq_false, if_false, ite_false]
      have harith : 3 + 4 * a + 4 = 3 + 4 * (a + 1) := by omega
      rw [harith]
      obtain ⟨ihl, ihw, iho⟩ := ih data (a + 1) (by omega)
      refine ⟨ihl, fun i hi => ?_, fun q hq => ?_⟩
      · match i, hi with
        | 0, _ =>
          rw [iho (3 + 4 * (a + 0)) (by omega)]
          simp [h0]
        | i + 1, hi =>
          have := ihw i (by omega)
          rw [show a + (i + 1) = a + 1 + i by omega]
          exact this
      · exact iho q (by omega)
    · simp only [h0, ne_eq, not_false_eq_true, if_true, ite_true]
      have hX : (((get_offset data (3 + 4 * a) : Int) + diff).emod (2 ^ 32)).toNat < 2 ^ 32 := by
        have h1 : ((get_offset data (3 + 4 * a) : Int) + diff).emod (2 ^ 32) < 2 ^ 32 :=
          Int.emod_lt_of_pos _ (by norm_num)
        have h2 : 0 ≤ ((get_offset data (3 + 4 * a) : Int) + diff).emod (2 ^ 32) :=
          Int.emod_nonneg _ (by norm_num)
        omega
      have hlen4 : (natToBeBytes 4 ((((get_offset data (3 + 4 * a) : Int) + diff).emod (2 ^ 32)).toNat)).length = 4 :=
        natToBeBytes_length 4 _
      have hin : 3 + 4 * a + 4 ≤ data.length := by omega
      have hd2len : (writeSlice data (3 + 4 * a)
          (natToBeBytes 4 ((((get_offset data (3 + 4 * a) : Int) + diff).emod (2 ^ 32)).toNat))).length
          = data.length := by
        rw [writeSlice_length _ _ _ (by rw [hlen4]; omega)]
      have harith : 3 + 4 * a + 4 = 3 + 4 * (a + 1) := by omega
      rw [harith]
      obtain ⟨ihl, ihw, iho⟩ := ih _ (a + 1) (by rw [hd2len]; omega)
      have hslot_a : get_offset (writeSlice data (3 + 4 * a)
          (natToBeBytes 4 ((((get_offset data (3 + 4 * a) : Int) + diff).emod (2 ^ 32)).toNat)))
          (3 + 4 * a)
          = (((get_offset data (3 + 4 * a) : Int) + diff).emod (2 ^ 32)).toNat := by
        rw [get_offset]
        have hs := readSlice_writeSlice_self data
          (natToBeBytes 4 ((((get_offset data (3 + 4 * a) : Int) + diff).emod (2 ^ 32)).toNat))
          (3 + 4 * a) (by rw [hlen4]; omega)
        rw [hlen4] at hs
        rw [hs, beBytesToNat_natToBeBytes]
        have h256 : (256 : Nat) ^ 4 = 2 ^ 32 := by norm_num
        exact Nat.mod_eq_of_lt (h256 ▸ hX)
      have hother : ∀ q, q + 4 ≤ 3 + 4 * a ∨ 3 + 4 * (a + 1) ≤ q →
          get_offset (writeSlice data (3 + 4 * a)
            (natToBeBytes 4 ((((get_offset data (3 + 4 * a) : Int) + diff).emod (2 ^ 32)).toNat))) q
          = get_offset data q := by
        intro q hq
        rcases hq with hq | hq
        · exact get_offset_writeSlice_before _ _ _ q (by omega) hq
        · exact get_offset_writeSlice_after _ _ _ q (by rw [hlen4]; omega) (by rw [hlen4]; omega)
      refine ⟨by rw [ihl, hd2len], fun i hi => ?_, fun q hq => ?_⟩
      · match i, hi with
        | 0, _ =>
          rw [iho (3 + 4 * (a + 0)) (by omega)]
          rw [show a + 0 = a by omega, hslot_a]
          simp [h0]
        | i + 1, hi =>
          have hw := ihw i (by omega)
          rw [show a + (i + 1) = a + 1 + i by omega]
          rw [hw]
          rw [hother (3 + 4 * (a + 1 + i)) (by omega)]
      · rw [iho q (by omega), hother q (by omega)]

/-- Wrapper: `move_offsets` from slot `a`'s position to the header end. -/
theorem move_offsets_spec (diff : Int) (data : List Nat) (a n : Nat)
    (han : a ≤ n) (hb : 3 + 4 * n ≤ data.length) :
    (move_offsets data (3 + 4 * a) (3 + 4 * n) diff).length = data.length
    ∧ (∀ i, i < n - a →
        get_offset (move_offsets data (3 + 4 * a) (3 + 4 * n) diff) (3 + 4 * (a + i))
          = if get_offset data (3 + 4 * (a + i)) = 0 then 0
            else (((get_offset data (3 + 4 * (a + i)) : Int) + diff).emod (2 ^ 32)).toNat)
    ∧ (∀ q, q + 4 ≤ 3 + 4 * a ∨ 3 + 4 * n ≤ q →
        get_offset (move_offsets data (3 + 4 * a) (3 + 4 * n) diff) q = get_offset data q) := by
  have hc : (3 + 4 * n - (3 + 4 * a) + 3) / 4 = n - a := by omega
  rw [move_offsets, hc]
  have := move_offsets_from_spec diff (n - a) data a (by omega)
  rwa [show a + (n - a) = n by omega] at this

theorem inv_po_le_dend (data : List Nat) (n k : Nat) (hd : header_inv data n) (hk : k < n) :
    3 + 4 * n ≤ get_end data (3 + 4 * k) (3 + 4 * n) := by
  obtain ⟨hlen, hbounds, hmono⟩ := hd
  rcases dend_cases data n k hk with ⟨he, _⟩ | ⟨jp, h1, h2, h3, he, _⟩
  · omega
  · rw [he]
    exact (hbounds jp h2 h3).1

theorem inv_dend_le_len (data : List Nat) (n k : Nat) (hd : header_inv data n) (hk : k < n) :
    get_end data (3 + 4 * k) (3 + 4 * n) ≤ data.length := by
  obtain ⟨hlen, hbounds, hmono⟩ := hd
  rcases dend_cases data n k hk with ⟨he, _⟩ | ⟨jp, h1, h2, h3, he, _⟩
  · omega
  · rw [he]
    exact (hbounds jp h2 h3).2

theorem inv_off_le_dend (data : List Nat) (n k q : Nat) (hd : header_inv data n) (hk : k < n)
    (hq : q ≤ k) (hnz : get_offset data (3 + 4 * q) ≠ 0) :
    get_offset data (3 + 4 * q) ≤ get_end data (3 + 4 * k) (3 + 4 * n) := by
  obtain ⟨hlen, hbounds, hmono⟩ := hd
  rcases dend_cases data n k hk with ⟨he, _⟩ | ⟨jp, h1, h2, h3, he, _⟩
  · rw [he]
    exact (hbounds q (by omega) hnz).2
  · rw [he]
    exact hmono q jp (by omega) h2 hnz h3

theorem inv_dend_le_off_after (data : List Nat) (n k q : Nat) (hd : header_inv data n)
    (hk : k < n) (hq1 : k < q) (hq2 : q < n) (hnz : get_offset data (3 + 4 * q) ≠ 0) :
    get_end data (3 + 4 * k) (3 + 4 * n) ≤ get_offset data (3 + 4 * q) := by
  obtain ⟨hlen, hbounds, hmono⟩ := hd
  rcases dend_cases data n k hk with ⟨he, hall⟩ | ⟨jp, h1, h2, h3, he, hmin⟩
  · exact absurd (hall q hq1 hq2) hnz
  · rw [he]
    have hjpq : jp ≤ q := by
      by_contra hc
      exact hnz (hmin q hq1 (by omega))
    exact hmono jp q hjpq hq2 h3 hnz

/-- Bounds for the `update_data` locals under the invariants. -/
theorem upd_locals_bounds (n k : Nat) (new_data data : List Nat)
    (hk : k < n) (hd : header_inv data n) (hnd : header_inv new_data n) :
    upd_update_len (3 + 4 * n) new_data (3 + 4 * k) ≤ new_data.length
    ∧ (upd_new_end (3 + 4 * n) new_data data (3 + 4 * k) : Int)
        = (get_end data (3 + 4 * k) (3 + 4 * n) : Int)
          + upd_diff (3 + 4 * n) new_data data (3 + 4 * k)
    ∧ 3 + 4 * n ≤ upd_new_offset (3 + 4 * n) data (3 + 4 * k)
    ∧ upd_diff (3 + 4 * n) new_data data (3 + 4 * k)
        ≤ (upd_update_len (3 + 4 * n) new_data (3 + 4 * k) : Int) := by
  have hdle := inv_dend_le_len data n k hd hk
  have hpole := inv_po_le_dend data n k hd hk
  have hoffk : get_offset data (3 + 4 * k) ≠ 0 →
      3 + 4 * n ≤ get_offset data (3 + 4 * k) ∧ get_offset data (3 + 4 * k) ≤ data.length :=
    fun h => hd.2.1 k hk h
  have hoffdend : get_offset data (3 + 4 * k) ≠ 0 →
      get_offset data (3 + 4 * k) ≤ get_end data (3 + 4 * k) (3 + 4 * n) :=
    fun h => inv_off_le_dend data n k k hd hk (le_refl k) h
  have hulen : upd_update_len (3 + 4 * n) new_data (3 + 4 * k) ≤ new_data.length := by
    rw [upd_update_len, upd_update_end]
    by_cases hu : get_offset new_data (3 + 4 * k) = 0
    · simp [hu]
    · simp only [hu, if_false, ite_false]
      have := inv_dend_le_len new_data n k hnd hk
      omega
  refine ⟨hulen, ?_, ?_, ?_⟩
  · rw [upd_new_end, upd_new_offset, upd_diff, upd_len]
    by_cases ho : get_offset data (3 + 4 * k) = 0
    · simp only [ho, if_true, ite_true]
      push_cast
      ring
    · simp only [ho, if_false, ite_false]
      have h1 := hoffdend ho
      push_cast
      omega
  · rw [upd_new_offset]
    by_cases ho : get_offset data (3 + 4 * k) = 0
    · simp only [ho, if_true, ite_true]
      exact hpole
    · simp only [ho, if_false, ite_false]
      exact (hoffk ho).1
  · rw [upd_diff]
    have : (0 : Int) ≤ upd_len (3 + 4 * n) data (3 + 4 * k) := by positivity
    omega

/-- Header description of `upd_shifted`: length changed by `diff`, slots
up to `k` untouched, live slots after `k` shifted by `diff`. -/
theorem upd_shifted_spec (n k : Nat) (new_data data : List Nat)
    (hk : k < n) (hd : header_inv data n) (hnd : header_inv new_data n)
    (hbudget : (data.length : Int) + new_data.length < 2 ^ 32) :
    ((upd_shifted (3 + 4 * n) new_data data (3 + 4 * k)).length : Int)
        = (data.length : Int) + upd_diff (3 + 4 * n) new_data data (3 + 4 * k)
    ∧ (∀ q, q ≤ k → q < n →
        get_offset (upd_shifted (3 + 4 * n) new_data data (3 + 4 * k)) (3 + 4 * q)
          = get_offset data (3 + 4 * q))
    ∧ (∀ q, k < q → q < n →
        (get_offset (upd_shifted (3 + 4 * n) new_data data (3 + 4 * k)) (3 + 4 * q) : Int)
          = if get_offset data (3 + 4 * q) = 0 then 0
            else (get_offset data (3 + 4 * q) : Int)
              + upd_diff (3 + 4 * n) new_data data (3 + 4 * k)) := by
  obtain ⟨hulen, hnewend, hnoff, hdle_ulen⟩ := upd_locals_bounds n k new_data data hk hd hnd
  have hdle := inv_dend_le_len data n k hd hk
  have hpole := inv_po_le_dend data n k hd hk
  by_cases hdiff0 : upd_diff (3 + 4 * n) new_data data (3 + 4 * k) = 0
  · rw [upd_shifted, if_neg (by simp [hdiff0])]
    refine ⟨by rw [hdiff0]; ring, fun q _ _ => rfl, fun q hq1 hq2 => ?_⟩
    rw [hdiff0]
    by_cases h0 : get_offset data (3 + 4 * q) = 0
    · simp [h0]
    · simp [h0]
  · rw [upd_shifted, if_pos hdiff0]
    have hnend_ge : (3 + 4 * n : Int) ≤ upd_new_end (3 + 4 * n) new_data data (3 + 4 * k) := by
      have : (upd_new_offset (3 + 4 * n) data (3 + 4 * k) : Int)
          ≤ upd_new_end (3 + 4 * n) new_data data (3 + 4 * k) := by
        rw [upd_new_end]
        push_cast
        omega
      omega
    obtain ⟨sarl, sarp⟩ := shift_and_resize_spec data (get_end data (3 + 4 * k) (3 + 4 * n))
      (upd_new_end (3 + 4 * n) new_data data (3 + 4 * k))
      (upd_diff (3 + 4 * n) new_data data (3 + 4 * k)) hdle hnewend
    have hsarlen : ((shift_and_resize data (get_end data (3 + 4 * k) (3 + 4 * n))
        (upd_new_end (3 + 4 * n) new_data data (3 + 4 * k))
        (upd_diff (3 + 4 * n) new_data data (3 + 4 * k))).length : Int)
        = (data.length : Int) + upd_diff (3 + 4 * n) new_data data (3 + 4 * k) := by
      rw [sarl]
      omega
    have hmv := move_offsets_spec (upd_diff (3 + 4 * n) new_data data (3 + 4 * k))
      (shift_and_resize data (get_end data (3 + 4 * k) (3 + 4 * n))
        (upd_new_end (3 + 4 * n) new_data data (3 + 4 * k))
        (upd_diff (3 + 4 * n) new_data data (3 + 4 * k)))
      (k + 1) n (by omega) (by omega)
    rw [show 3 + 4 * k + 4 = 3 + 4 * (k + 1) by omega]
    obtain ⟨mvl, mvw, mvo⟩ := hmv
    have hsar_slot : ∀ q, q < n →
        get_offset (shift_and_resize data (get_end data (3 + 4 * k) (3 + 4 * n))
          (upd_new_end (3 + 4 * n) new_data data (3 + 4 * k))
          (upd_diff (3 + 4 * n) new_data data (3 + 4 * k))) (3 + 4 * q)
        = get_offset data (3 + 4 * q) := by
      intro q hq
      exact sarp (3 + 4 * q) (by omega) (by omega)
    refine ⟨by rw [mvl]; exact hsarlen, fun q hq1 hq2 => ?_, fun q hq1 hq2 => ?_⟩
    · rw [mvo (3 + 4 * q) (by omega)]
      exact hsar_slot q hq2
    · have hi := mvw (q - (k + 1)) (by omega)
      rw [show k + 1 + (q - (k + 1)) = q by omega] at hi
      rw [hi, hsar_slot q hq2]
      by_cases h0 : get_offset data (3 + 4 * q) = 0
      · simp [h0]
      · simp only [h0, if_false, ite_false]
        have hge : get_end data (3 + 4 * k) (3 + 4 * n) ≤ get_offset data (3 + 4 * q) :=
          inv_dend_le_off_after data n k q hd hk hq1 hq2 h0
        have hle : get_offset data (3 + 4 * q) ≤ data.length := (hd.2.1 q hq2 h0).2
        have hx_lb : (0 : Int) ≤ (get_offset data (3 + 4 * q) : Int)
            + upd_diff (3 + 4 * n) new_data data (3 + 4 * k) := by
          omega
        have hx_ub : (get_offset data (3 + 4 * q) : Int)
            + upd_diff (3 + 4 * n) new_data data (3 + 4 * k) < 2 ^ 32 := by
          omega
        have hmod : Int.emod ((get_offset data (3 + 4 * q) : Int)
            + upd_diff (3 + 4 * n) new_data data (3 + 4 * k)) (2 ^ 32)
            = (get_offset data (3 + 4 * q) : Int)
              + upd_diff (3 + 4 * n) new_data data (3 + 4 * k) :=
          Int.emod_eq_of_lt hx_lb hx_ub
        rw [hmod]
        omega

/-- Assembly lemma: a buffer whose header agrees with `data` before slot
`k`, holds `v` at slot `k`, and is shifted by `d` after slot `k`, satisfies
the invariant again. -/
theorem header_inv_mk (R data : List Nat) (n k : Nat) (hd : header_inv data n) (hk : k < n)
    (d : Int) (v : Nat)
    (hRlen : (R.length : Int) = (data.length : Int) + d)
    (hde : (3 + 4 * n : Int) ≤ (get_end data (3 + 4 * k) (3 + 4 * n) : Int) + d)
    (hslotk : get_offset R (3 + 4 * k) = v)
    (hv : v ≠ 0 → 3 + 4 * n ≤ v
        ∧ (v : Int) ≤ (get_end data (3 + 4 * k) (3 + 4 * n) : Int) + d
        ∧ ∀ q, q ≤ k → get_offset data (3 + 4 * q) ≠ 0 → get_offset data (3 + 4 * q) ≤ v)
    (hqle : ∀ q, q ≤ k → get_offset data (3 + 4 * q) ≠ 0 →
        (get_offset data (3 + 4 * q) : Int) ≤ (get_end data (3 + 4 * k) (3 + 4 * n) : Int) + d)
    (hbefore : ∀ q, q < k → get_offset R (3 + 4 * q) = get_offset data (3 + 4 * q))
    (hafter : ∀ q, k < q → q < n →
        (get_offset R (3 + 4 * q) : Int)
          = if get_offset data (3 + 4 * q) = 0 then 0
            else (get_offset data (3 + 4 * q) : Int) + d) :
    header_inv R n := by
  have hdlen := inv_dend_le_len data n k hd hk
  have hslot : ∀ q, q < n →
      (q < k ∧ get_offset R (3 + 4 * q) = get_offset data (3 + 4 * q))
      ∨ (q = k ∧ get_offset R (3 + 4 * q) = v)
      ∨ (k < q ∧ (get_offset R (3 + 4 * q) : Int)
            = if get_offset data (3 + 4 * q) = 0 then 0
              else (get_offset data (3 + 4 * q) : Int) + d) := by
    intro q hq
    rcases Nat.lt_trichotomy q k with h | h | h
    · exact Or.inl ⟨h, hbefore q h⟩
    · exact Or.inr (Or.inl ⟨h, h ▸ hslotk⟩)
    · exact Or.inr (Or.inr ⟨h, hafter q h hq⟩)
  refine ⟨by omega, ?_, ?_⟩
  · intro q hq hnz
    rcases hslot q hq with ⟨hlt, he⟩ | ⟨heq, he⟩ | ⟨hgt, he⟩
    · rw [he] at hnz ⊢
      have hb := hd.2.1 q hq hnz
      have hq2 := hqle q (le_of_lt hlt) hnz
      omega
    · rw [he] at hnz ⊢
      have := hv hnz
      omega
    · by_cases h0 : get_offset data (3 + 4 * q) = 0
      · rw [if_pos h0] at he
        omega
      · rw [if_neg h0] at he
        have hb := hd.2.1 q hq h0
        have hge := inv_dend_le_off_after data n k q hd hk hgt hq h0
        omega
  · intro j q hjq hq hnzj hnzq
    rcases hslot j (by omega) with ⟨hj, hej⟩ | ⟨hj, hej⟩ | ⟨hj, hej⟩ <;>
      rcases hslot q hq with ⟨hq2, heq⟩ | ⟨hq2, heq⟩ | ⟨hq2, heq⟩
    · rw [hej] at hnzj ⊢
      rw [heq] at hnzq ⊢
      exact hd.2.2 j q hjq hq hnzj hnzq
    · rw [hej] at hnzj ⊢
      rw [heq] at hnzq ⊢
      exact (hv hnzq).2.2 j (by omega) hnzj
    · rw [hej] at hnzj ⊢
      by_cases h0 : get_offset data (3 + 4 * q) = 0
      · rw [if_pos h0] at heq
        omega
      · rw [if_neg h0] at heq
        have h1 := hqle j (by omega) hnzj
        have h2 := inv_dend_le_off_after data n k q hd hk hq2 hq h0
        omega
    · omega
    · rw [hej] at hnzj ⊢
      rw [heq] at hnzq ⊢
    · rw [hej] at hnzj ⊢
      by_cases h0 : get_offset data (3 + 4 * q) = 0
      · rw [if_pos h0] at heq
        omega
      · rw [if_neg h0] at heq
        have h1 := (hv hnzj).2.1
        have h2 := inv_dend_le_off_after data n k q hd hk hq2 hq h0
        omega
    · omega
    · omega
    · by_cases h0j : get_offset data (3 + 4 * j) = 0
      · rw [if_pos h0j] at hej
        omega
      · rw [if_neg h0j] at hej
        by_cases h0q : get_offset data (3 + 4 * q) = 0
        · rw [if_pos h0q] at heq
          omega
        · rw [if_neg h0q] at heq
          have := hd.2.2 j q hjq hq h0j h0q
          omega

/-- One iteration of the `update_data` loop preserves the header invariant
and grows the buffer by at most the partial buffer's length. -/
theorem update_field_step (n k : Nat) (new_data data : List Nat)
    (mask : List Bool) (field : Field)
    (hf : field.offset_pos = 3 + 4 * k) (hk : k < n)
    (hd : header_inv data n) (hnd : header_inv new_data n)
    (hbudget : (data.length : Int) + new_data.length < 2 ^ 32) :
    header_inv (update_field (3 + 4 * n) new_data mask data field) n
    ∧ (update_field (3 + 4 * n) new_data mask data field).length
        ≤ data.length + new_data.length := by
  obtain ⟨hSlen, hSbef, hSaft⟩ := upd_shifted_spec n k new_data data hk hd hnd hbudget
  obtain ⟨hulen, hnewend, hnoff3, hdiffle⟩ := upd_locals_bounds n k new_data data hk hd hnd
  have hdlen := inv_dend_le_len data n k hd hk
  have hpodend := inv_po_le_dend data n k hd hk
  have hdnn : 3 + 4 * n ≤ data.length := hd.1
  rw [update_field, hf]
  rw [if_neg (show ¬(3 + 4 * k = 0) by omega)]
  cases h2 : mask.getD field.offset_index false
  case false =>
    rw [if_pos (by decide)]
    exact ⟨hd, Nat.le_add_right _ _⟩
  rw [if_neg (by decide)]
  by_cases h3 : get_offset data (3 + 4 * k) = 0 ∧ get_offset new_data (3 + 4 * k) = 0
  case pos =>
    rw [if_pos h3]
    exact ⟨hd, Nat.le_add_right _ _⟩
  rw [if_neg h3]
  by_cases h4 : get_offset new_data (3 + 4 * k) = 0
  case pos =>
    -- delete: the updated field is null, the live old field is removed
    rw [if_pos h4]
    have hoff : get_offset data (3 + 4 * k) ≠ 0 := fun h => h3 ⟨h, h4⟩
    have hoffb := hd.2.1 k hk hoff
    have hoffdend := inv_off_le_dend data n k k hd hk le_rfl hoff
    have hulen0 : upd_update_len (3 + 4 * n) new_data (3 + 4 * k) = 0 := by
      rw [upd_update_len, if_pos h4]
    have hlen_eq : upd_len (3 + 4 * n) data (3 + 4 * k)
        = get_end data (3 + 4 * k) (3 + 4 * n) - get_offset data (3 + 4 * k) := by
      rw [upd_len, if_neg hoff]
    have hDeq : upd_diff (3 + 4 * n) new_data data (3 + 4 * k)
        = (0 : Int) - (upd_len (3 + 4 * n) data (3 + 4 * k) : Int) := by
      rw [upd_diff, hulen0]
      push_cast
      ring
    have hdD : (get_end data (3 + 4 * k) (3 + 4 * n) : Int)
        + upd_diff (3 + 4 * n) new_data data (3 + 4 * k)
        = get_offset data (3 + 4 * k) := by
      rw [hDeq, hlen_eq]
      omega
    have hSlen4 : 3 + 4 * k + 4
        ≤ (upd_shifted (3 + 4 * n) new_data data (3 + 4 * k)).length := by
      omega
    constructor
    · refine header_inv_mk _ data n k hd hk
        (upd_diff (3 + 4 * n) new_data data (3 + 4 * k)) 0 ?_ ?_ ?_ ?_ ?_ ?_ ?_
      · rw [set_offset_null_length _ _ hSlen4]
        exact hSlen
      · omega
      · exact get_offset_set_offset_null_self _ _ hSlen4
      · intro h
        exact absurd rfl h
      · intro q hq hnz
        have := hd.2.2 q k hq hk hnz hoff
        omega
      · intro q hq
        rw [get_offset_set_offset_null_other (upd_shifted (3 + 4 * n) new_data data (3 + 4 * k))
          (3 + 4 * k) (3 + 4 * q) hSlen4 (Or.inl (by omega))]
        exact hSbef q (le_of_lt hq) (by omega)
      · intro q hq1 hq2
        rw [get_offset_set_offset_null_other (upd_shifted (3 + 4 * n) new_data data (3 + 4 * k))
          (3 + 4 * k) (3 + 4 * q) hSlen4 (Or.inr (by omega))]
        exact hSaft q hq1 hq2
    · rw [set_offset_null_length _ _ hSlen4]
      omega
  -- from here on the updated field is live: uoff ≠ 0
  rw [if_neg h4]
  have huendeq : upd_update_end (3 + 4 * n) new_data (3 + 4 * k)
      = get_end new_data (3 + 4 * k) (3 + 4 * n) := by
    rw [upd_update_end, if_neg h4]
  have huleneq : upd_update_len (3 + 4 * n) new_data (3 + 4 * k)
      = get_end new_data (3 + 4 * k) (3 + 4 * n) - get_offset new_data (3 + 4 * k) := by
    rw [upd_update_len, if_neg h4, huendeq]
  have huoffle := inv_off_le_dend new_data n k k hnd hk le_rfl h4
  have hundlen := inv_dend_le_len new_data n k hnd hk
  have hrs : (readSlice new_data (get_offset new_data (3 + 4 * k))
      (upd_update_len (3 + 4 * n) new_data (3 + 4 * k))).length
      = upd_update_len (3 + 4 * n) new_data (3 + 4 * k) :=
    readSlice_length _ _ _ (by omega)
  by_cases h5 : upd_new_offset (3 + 4 * n) data (3 + 4 * k) ≠ get_offset data (3 + 4 * k)
  case pos =>
    -- insert: the old field was null, payload appended at the current end
    rw [if_pos h5]
    have hoff0 : get_offset data (3 + 4 * k) = 0 := by
      by_contra hc
      exact h5 (by rw [upd_new_offset, if_neg hc])
    have hnoffeq : upd_new_offset (3 + 4 * n) data (3 + 4 * k)
        = get_end data (3 + 4 * k) (3 + 4 * n) := by
      rw [upd_new_offset, if_pos hoff0]
    have hlen0 : upd_len (3 + 4 * n) data (3 + 4 * k) = 0 := by
      rw [upd_len, if_pos hoff0]
    have hDeq : upd_diff (3 + 4 * n) new_data data (3 + 4 * k)
        = (upd_update_len (3 + 4 * n) new_data (3 + 4 * k) : Int) := by
      rw [upd_diff, hlen0]
      push_cast
      ring
    rw [hnoffeq]
    have hWlen : (writeSlice (upd_shifted (3 + 4 * n) new_data data (3 + 4 * k))
        (get_end data (3 + 4 * k) (3 + 4 * n))
        (readSlice new_data (get_offset new_data (3 + 4 * k))
          (upd_update_len (3 + 4 * n) new_data (3 + 4 * k)))).length
        = (upd_shifted (3 + 4 * n) new_data data (3 + 4 * k)).length :=
      writeSlice_length _ _ _ (by rw [hrs]; omega)
    have hin_k : 3 + 4 * k + 4
        ≤ (writeSlice (upd_shifted (3 + 4 * n) new_data data (3 + 4 * k))
            (get_end data (3 + 4 * k) (3 + 4 * n))
            (readSlice new_data (get_offset new_data (3 + 4 * k))
              (upd_update_len (3 + 4 * n) new_data (3 + 4 * k)))).length := by
      rw [hWlen]
      omega
    have hvk : get_offset (set_offset
        (writeSlice (upd_shifted (3 + 4 * n) new_data data (3 + 4 * k))
          (get_end data (3 + 4 * k) (3 + 4 * n))
          (readSlice new_data (get_offset new_data (3 + 4 * k))
            (upd_update_len (3 + 4 * n) new_data (3 + 4 * k))))
        (3 + 4 * k) (get_end data (3 + 4 * k) (3 + 4 * n))) (3 + 4 * k)
        = get_end data (3 + 4 * k) (3 + 4 * n) := by
      rw [get_offset_set_offset_self _ _ _ hin_k, Nat.mod_eq_of_lt (by omega)]
    constructor
    · refine header_inv_mk _ data n k hd hk
        (upd_diff (3 + 4 * n) new_data data (3 + 4 * k))
        (get_end data (3 + 4 * k) (3 + 4 * n)) ?_ ?_ hvk ?_ ?_ ?_ ?_
      · rw [set_offset_length _ _ _ hin_k, hWlen]
        exact hSlen
      · omega
      · intro _
        refine ⟨hpodend, by omega, fun q hq hnz => inv_off_le_dend data n k q hd hk hq hnz⟩
      · intro q hq hnz
        have := inv_off_le_dend data n k q hd hk hq hnz
        omega
      · intro q hq
        rw [get_offset_set_offset_other _ (3 + 4 * k) (get_end data (3 + 4 * k) (3 + 4 * n))
          (3 + 4 * q) hin_k (Or.inl (by omega))]
        rw [get_offset_writeSlice_before (upd_shifted (3 + 4 * n) new_data data (3 + 4 * k)) _
          (get_end data (3 + 4 * k) (3 + 4 * n)) (3 + 4 * q) (by omega) (by omega)]
        exact hSbef q (le_of_lt hq) (by omega)
      · intro q hq1 hq2
        rw [get_offset_set_offset_other _ (3 + 4 * k) (get_end data (3 + 4 * k) (3 + 4 * n))
          (3 + 4 * q) hin_k (Or.inr (by omega))]
        rw [get_offset_writeSlice_before (upd_shifted (3 + 4 * n) new_data data (3 + 4 * k)) _
          (get_end data (3 + 4 * k) (3 + 4 * n)) (3 + 4 * q) (by omega) (by omega)]
        exact hSaft q hq1 hq2
    · rw [set_offset_length _ _ _ hin_k, hWlen]
      omega
  case neg =>
    -- overwrite: old and new field both live, content replaced in place
    rw [if_neg h5]
    rw [not_not] at h5
    have hoffne : get_offset data (3 + 4 * k) ≠ 0 := by
      intro hc
      rw [upd_new_offset, if_pos hc] at h5
      omega
    have hoffb := hd.2.1 k hk hoffne
    have hoffdend := inv_off_le_dend data n k k hd hk le_rfl hoffne
    have hne2 : (get_offset data (3 + 4 * k) : Int)
        + upd_update_len (3 + 4 * n) new_data (3 + 4 * k)
        = (get_end data (3 + 4 * k) (3 + 4 * n) : Int)
          + upd_diff (3 + 4 * n) new_data data (3 + 4 * k) := by
      rw [upd_new_end, h5] at hnewend
      push_cast at hnewend
      omega
    rw [h5]
    have hWlen : (writeSlice (upd_shifted (3 + 4 * n) new_data data (3 + 4 * k))
        (get_offset data (3 + 4 * k))
        (readSlice new_data (get_offset new_data (3 + 4 * k))
          (upd_update_len (3 + 4 * n) new_data (3 + 4 * k)))).length
        = (upd_shifted (3 + 4 * n) new_data data (3 + 4 * k)).length :=
      writeSlice_length _ _ _ (by rw [hrs]; omega)
    have hvk : get_offset (writeSlice (upd_shifted (3 + 4 * n) new_data data (3 + 4 * k))
        (get_offset data (3 + 4 * k))
        (readSlice new_data (get_offset new_data (3 + 4 * k))
          (upd_update_len (3 + 4 * n) new_data (3 + 4 * k)))) (3 + 4 * k)
        = get_offset data (3 + 4 * k) := by
      rw [get_offset_writeSlice_before (upd_shifted (3 + 4 * n) new_data data (3 + 4 * k)) _
        (get_offset data (3 + 4 * k)) (3 + 4 * k) (by omega) (by omega)]
      exact hSbef k le_rfl hk
    constructor
    · refine header_inv_mk _ data n k hd hk
        (upd_diff (3 + 4 * n) new_data data (3 + 4 * k))
        (get_offset data (3 + 4 * k)) ?_ ?_ hvk ?_ ?_ ?_ ?_
      · rw [hWlen]
        exact hSlen
      · omega
      · intro _
        refine ⟨hoffb.1, by omega, fun q hq hnz => hd.2.2 q k hq hk hnz hoffne⟩
      · intro q hq hnz
        have := hd.2.2 q k hq hk hnz hoffne
        omega
      · intro q hq
        rw [get_offset_writeSlice_before (upd_shifted (3 + 4 * n) new_data data (3 + 4 * k)) _
          (get_offset data (3 + 4 * k)) (3 + 4 * q) (by omega) (by omega)]
        exact hSbef q (le_of_lt hq) (by omega)
      · intro q hq1 hq2
        rw [get_offset_writeSlice_before (upd_shifted (3 + 4 * n) new_data data (3 + 4 * k)) _
          (get_offset data (3 + 4 * k)) (3 + 4 * q) (by omega) (by omega)]
        exact hSaft q hq1 hq2
    · rw [hWlen]
      omega

/-- The `update_data` fold preserves the header invariant, with the buffer
growing by at most one partial-buffer length per field. -/
theorem update_data_inv (n : Nat) (new_data : List Nat) (mask : List Bool) :
    ∀ (fields : List Field) (data : List Nat),
      (∀ f ∈ fields, f.offset_pos = 0 ∨ ∃ k, k < n ∧ f.offset_pos = 3 + 4 * k) →
      header_inv data n → header_inv new_data n →
      data.length + fields.length * new_data.length < 2 ^ 32 →
      header_inv (update_data fields (3 + 4 * n) data new_data mask) n
      ∧ (update_data fields (3 + 4 * n) data new_data mask).length
          ≤ data.length + fields.length * new_data.length := by
  intro fields
  induction fields with
  | nil =>
    intro data _ hd _ _
    exact ⟨hd, by simp [update_data]⟩
  | cons f fs ih =>
    intro data hfs hd hnd hb
    simp only [List.length_cons] at hb ⊢
    have hstep : update_data (f :: fs) (3 + 4 * n) data new_data mask
        = update_data fs (3 + 4 * n) (update_field (3 + 4 * n) new_data mask data f)
            new_data mask := by
      rw [update_data, update_data, List.foldl_cons]
    have hfs' : ∀ g ∈ fs, g.offset_pos = 0 ∨ ∃ k, k < n ∧ g.offset_pos = 3 + 4 * k :=
      fun g hg => hfs g (List.mem_cons_of_mem _ hg)
    have hmul : fs.length * new_data.length ≤ (fs.length + 1) * new_data.length :=
      Nat.mul_le_mul_right _ (Nat.le_succ _)
    rcases hfs f (List.mem_cons_self f fs) with hf0 | ⟨k, hk, hfk⟩
    · have hff : update_field (3 + 4 * n) new_data mask data f = data := by
        rw [update_field, hf0]
        simp
      rw [hstep, hff]
      obtain ⟨hi1, hi2⟩ := ih data hfs' hd hnd
        (lt_of_le_of_lt (Nat.add_le_add_left hmul _) hb)
      exact ⟨hi1, le_trans hi2 (Nat.add_le_add_left hmul _)⟩
    · have hnd1 : new_data.length ≤ (fs.length + 1) * new_data.length :=
        Nat.le_mul_of_pos_left _ (Nat.succ_pos _)
      have hstepbud : (data.length : Int) + new_data.length < 2 ^ 32 := by
        exact_mod_cast lt_of_le_of_lt (Nat.add_le_add_left hnd1 data.length) hb
      obtain ⟨hinv2, hlen2⟩ := update_field_step n k new_data data mask f hfk hk hd hnd hstepbud
      have hbound : (update_field (3 + 4 * n) new_data mask data f).length
          + fs.length * new_data.length
          ≤ data.length + (fs.length + 1) * new_data.length := by
        calc (update_field (3 + 4 * n) new_data mask data f).length
              + fs.length * new_data.length
            ≤ (data.length + new_data.length) + fs.length * new_data.length :=
              Nat.add_le_add_right hlen2 _
          _ = data.length + (fs.length + 1) * new_data.length := by ring
      obtain ⟨hi1, hi2⟩ := ih (update_field (3 + 4 * n) new_data mask data f) hfs' hinv2 hnd
        (lt_of_le_of_lt hbound hb)
      rw [hstep]
      exact ⟨hi1, le_trans hi2 hbound⟩

/-- **C2**: header invariant after update. For an `n`-slot model whose
fields sit at the canonical slot positions, any original buffer and any
encoded partial buffer that satisfy the layout invariant, and any change
mask, the buffer produced by `update_data` has offset-table entries that,
restricted to non-zero values, are monotonically non-decreasing, and the
end (`get_end`) of the last non-null field equals the total buffer
length. -/
theorem update_data_header_invariant (n : Nat) (fields : List Field)
    (data new_data : List Nat) (mask : List Bool)
    (hfields : ∀ f ∈ fields, f.offset_pos = 0 ∨ ∃ k, k < n ∧ f.offset_pos = 3 + 4 * k)
    (hd : header_inv data n) (hnd : header_inv new_data n)
    (hbudget : data.length + fields.length * new_data.length < 2 ^ 32) :
    (∀ j q, j ≤ q → q < n →
        get_offset (update_data fields (3 + 4 * n) data new_data mask) (3 + 4 * j) ≠ 0 →
        get_offset (update_data fields (3 + 4 * n) data new_data mask) (3 + 4 * q) ≠ 0 →
        get_offset (update_data fields (3 + 4 * n) data new_data mask) (3 + 4 * j)
          ≤ get_offset (update_data fields (3 + 4 * n) data new_data mask) (3 + 4 * q))
    ∧ (∀ k, k < n →
        get_offset (update_data fields (3 + 4 * n) data new_data mask) (3 + 4 * k) ≠ 0 →
        (∀ j, k < j → j < n →
            get_offset (update_data fields (3 + 4 * n) data new_data mask) (3 + 4 * j) = 0) →
        get_end (update_data fields (3 + 4 * n) data new_data mask) (3 + 4 * k) (3 + 4 * n)
          = (update_data fields (3 + 4 * n) data new_data mask).length) := by
  obtain ⟨hinv, _⟩ := update_data_inv n new_data mask fields data hfields hd hnd hbudget
  refine ⟨fun j q hjq hq => hinv.2.2 j q hjq hq, fun k hk _ hz => ?_⟩
  rw [get_end_eq_from _ k n hk]
  exact get_end_from_all_zero _ (n - k - 1) (k + 1)
    (fun i hi => hz (k + 1 + i) (by omega) (by omega))

/-- Witness for C2: the S1 `User` buffer updated with the encoded
`\x7bage:30\x7d` partial buffer satisfies the hypotheses, and the
invariant conclusion holds for the produced buffer. -/
theorem update_data_header_invariant_witness :
    ((∀ f ∈ userFields, f.offset_pos = 0 ∨ ∃ k, k < 3 ∧ f.offset_pos = 3 + 4 * k)
      ∧ header_inv c2_data 3 ∧ header_inv c2_new_data 3
      ∧ c2_data.length + userFields.length * c2_new_data.length < 2 ^ 32)
    ∧ ((∀ j q, j ≤ q → q < 3 →
        get_offset (update_data userFields (3 + 4 * 3) c2_data c2_new_data c2_mask)
          (3 + 4 * j) ≠ 0 →
        get_offset (update_data userFields (3 + 4 * 3) c2_data c2_new_data c2_mask)
          (3 + 4 * q) ≠ 0 →
        get_offset (update_data userFields (3 + 4 * 3) c2_data c2_new_data c2_mask)
          (3 + 4 * j)
          ≤ get_offset (update_data userFields (3 + 4 * 3) c2_data c2_new_data c2_mask)
              (3 + 4 * q))
      ∧ (∀ k, k < 3 →
        get_offset (update_data userFields (3 + 4 * 3) c2_data c2_new_data c2_mask)
          (3 + 4 * k) ≠ 0 →
        (∀ j, k < j → j < 3 →
            get_offset (update_data userFields (3 + 4 * 3) c2_data c2_new_data c2_mask)
              (3 + 4 * j) = 0) →
        get_end (update_data userFields (3 + 4 * 3) c2_data c2_new_data c2_mask)
            (3 + 4 * k) (3 + 4 * 3)
          = (update_data userFields (3 + 4 * 3) c2_data c2_new_data c2_mask).length)) := by
  have hfields : ∀ f ∈ userFields, f.offset_pos = 0 ∨ ∃ k, k < 3 ∧ f.offset_pos = 3 + 4 * k := by
    intro f hf
    simp only [userFields, List.mem_cons, List.not_mem_nil, or_false] at hf
    rcases hf with rfl | rfl | rfl
    · exact Or.inr ⟨0, by omega, rfl⟩
    · exact Or.inr ⟨1, by omega, rfl⟩
    · exact Or.inr ⟨2, by omega, rfl⟩
  have hd : header_inv c2_data 3 := by
    refine ⟨by decide, by decide, ?_⟩
    intro j k hjk hk
    interval_cases k <;> interval_cases j <;> decide
  have hnd : header_inv c2_new_data 3 := by
    refine ⟨by decide, by decide, ?_⟩
    intro j k hjk hk
    interval_cases k <;> interval_cases j <;> decide
  have hbudget : c2_data.length + userFields.length * c2_new_data.length < 2 ^ 32 := by decide
  exact ⟨⟨hfields, hd, hnd, hbudget⟩,
    update_data_header_invariant 3 userFields c2_data c2_new_data c2_mask
      hfields hd hnd hbudget⟩

/-! ## Helper lemmas for the C1 round trip -/

theorem getD_replicate_true (m j : Nat) (h : j < m) :
    (List.replicate m true).getD j false = true := by
  rw [List.getD_eq_getElem?_getD, List.getElem?_eq_getElem (by simpa using h)]
  simp

theorem readSlice_append_self (a b : List Nat) :
    readSlice (a ++ b) a.length b.length = b := by
  simp [readSlice]

theorem readByte_of_readSlice (B : List Nat) (off x : Nat)
    (h : readSlice B off 1 = [x]) : readByte B off = x := by
  rw [readByte]
  rw [readSlice] at h
  rcases hd : B.drop off with _ | ⟨y, rest⟩
  · rw [hd] at h
    simp at h
  · rw [hd] at h
    simp at h
    have hgd : B.getD off 0 = (B.drop off).getD 0 0 := by
      simp [List.getD_eq_getElem?_getD, List.getElem?_drop]
    rw [hgd, hd, h]
    rfl

theorem conforms_not_null (p : PrimitiveFieldType) (v : Json) (h : conforms p v) :
    v.isNull = false := by
  cases p <;> cases v <;> simp [conforms] at h <;> rfl

theorem conforms_bytes_pos (p : PrimitiveFieldType) (v : Json) (h : conforms p v) :
    0 < (prim_bytes p v).length := by
  cases p <;> cases v <;>
    simp_all [conforms, prim_bytes, intToBeBytes, natToBeBytes_length, List.length_pos]

theorem beBytesToInt_intToBeBytes (v : Int) (h1 : -(2 ^ 63) ≤ v) (h2 : v < 2 ^ 63) :
    beBytesToInt 8 (intToBeBytes 8 v) = v := by
  rw [intToBeBytes, beBytesToInt, beBytesToNat_natToBeBytes]
  have he : (8 : Nat) * 8 = 64 := by norm_num
  rw [he]
  have hnn : 0 ≤ v.emod (2 ^ 64) := Int.emod_nonneg v (by norm_num)
  have hlt : v.emod (2 ^ 64) < 2 ^ 64 := Int.emod_lt_of_pos v (by norm_num)
  have h256 : (256 : Nat) ^ 8 = 2 ^ 64 := by norm_num
  have hmod : (v.emod (2 ^ 64)).toNat % 256 ^ 8 = (v.emod (2 ^ 64)).toNat := by
    apply Nat.mod_eq_of_lt
    rw [h256]
    omega
  rw [hmod]
  have hval : ((v.emod (2 ^ 64)).toNat : Int) = v.emod (2 ^ 64) := Int.toNat_of_nonneg hnn
  simp only [hval]
  have h64 : (64 : Nat) - 1 = 63 := by norm_num
  rw [h64]
  by_cases hv : 0 ≤ v
  · have hc : v.emod (2 ^ 64) = v := Int.emod_eq_of_lt hv (by omega)
    rw [hc, if_pos (by omega)]
  · have hc : v.emod (2 ^ 64) = v + 2 ^ 64 := by
      have ha : (v + 2 ^ 64 * 1).emod (2 ^ 64) = v.emod (2 ^ 64) :=
        Int.add_mul_emod_self_left v (2 ^ 64) 1
      have hb : (v + 2 ^ 64 * 1).emod (2 ^ 64) = v + 2 ^ 64 * 1 :=
        Int.emod_eq_of_lt (by omega) (by omega)
      rw [← ha, hb]
      ring
    rw [hc, if_neg (by omega)]
    omega

theorem encode_value_conforms (dst : List Nat) (p : PrimitiveFieldType) (s : String)
    (v : Json) (h : conforms p v) :
    encode_value dst p s v = .ok (dst ++ prim_bytes p v) := by
  cases p <;> cases v <;> simp [conforms] at h <;>
    simp [encode_value, prim_bytes]
  · omega
  · omega

/-- One encoder iteration on a present conforming primitive: write the
offset slot, append the payload, recurse. -/
theorem encode_fields_cons_prim (f : Field) (rest : List Field)
    (obj : List (String × Json)) (buf : List Nat) (mask : List Bool)
    (structs : List InsertStruct) (p : PrimitiveFieldType) (v : Json)
    (hty : f.ty = .primitive p) (hv : jGet obj f.name = Option.some v)
    (hconf : conforms p v) :
    encode_fields (f :: rest) obj buf mask structs
      = encode_fields rest obj
          (writeSlice buf f.offset_pos (natToBeBytes 4 (buf.length % 2 ^ 32))
            ++ prim_bytes p v)
          (mask.set f.offset_index true) structs := by
  rw [encode_fields]
  split
  · rename_i h0
    rw [h0] at hv
    cases hv
  · rename_i v2 hv2
    rw [hv2] at hv
    injection hv with hv
    subst hv
    rw [if_neg (by simp [conforms_not_null p v2 hconf])]
    rw [hty]
    simp only [encode_value_conforms _ p f.name v2 hconf]

/-- Characterization of `encode_fields` on a cleanly-encoding object: the
result is `ok`, structs untouched, and the produced buffer records the
slot offsets and payload bytes of every field, leaving the bytes before
slot `i0` and the payload already present untouched. -/
theorem encode_fields_spec (n : Nat) (obj : List (String × Json)) :
    ∀ (fs : List Field) (es : List (String × Json)) (i0 : Nat) (buf : List Nat)
      (mask : List Bool) (structs : List InsertStruct),
      i0 + fs.length = n →
      encodes_cleanly fs es →
      canonical_from i0 fs →
      (∀ e ∈ es, jGet obj e.1 = Option.some e.2) →
      3 + 4 * n ≤ buf.length →
      buf.length + total_bytes (fs.zip (es.map Prod.snd)) < 2 ^ 32 →
      ∃ B mask2,
        encode_fields fs obj buf mask structs = .ok (B, mask2, structs)
        ∧ B.length = buf.length + total_bytes (fs.zip (es.map Prod.snd))
        ∧ slots_from B i0 buf.length (fs.zip (es.map Prod.snd))
        ∧ payload_from B buf.length (fs.zip (es.map Prod.snd))
        ∧ (∀ q len, q + len ≤ 3 + 4 * i0 → readSlice B q len = readSlice buf q len)
        ∧ (∀ q len, 3 + 4 * n ≤ q → q + len ≤ buf.length →
            readSlice B q len = readSlice buf q len) := by
  intro fs
  induction fs with
  | nil =>
    intro es i0 buf mask structs hn hclean hcanon hlook hbuf hbudget
    cases es with
    | cons e es' => simp [encodes_cleanly] at hclean
    | nil =>
      refine ⟨buf, mask, by rw [encode_fields], by simp [total_bytes], trivial, rfl,
        fun q len _ => rfl, fun q len _ _ => rfl⟩
  | cons f fs' ih =>
    intro es i0 buf mask structs hn hclean hcanon hlook hbuf hbudget
    cases es with
    | nil => simp [encodes_cleanly] at hclean
    | cons e es' =>
      obtain ⟨nm, v⟩ := e
      obtain ⟨hname, ⟨p, hty, hconf⟩, hclean2⟩ := hclean
      obtain ⟨hpos, hcanon2⟩ := hcanon
      have hi0n : i0 < n := by simp at hn; omega
      have hv : jGet obj f.name = Option.some v := by
        rw [hname]
        exact hlook (nm, v) (List.mem_cons_self _ _)
      have hfb : field_bytes f v = prim_bytes p v := by
        simp only [field_bytes, hty]
      have hz : ((f :: fs').zip (((nm, v) :: es').map Prod.snd))
          = (f, v) :: fs'.zip (es'.map Prod.snd) := rfl
      simp only [hz, total_bytes, hfb] at hbudget ⊢
      have hzz : total_bytes (List.zipWith Prod.mk fs' (es'.map Prod.snd))
          = total_bytes (fs'.zip (es'.map Prod.snd)) := rfl
      rw [hzz] at hbudget
      have hblt : buf.length < 2 ^ 32 := by omega
      have hin4 : 3 + 4 * i0 + 4 ≤ buf.length := by omega
      have hWlen : (set_offset buf (3 + 4 * i0) buf.length).length = buf.length :=
        set_offset_length buf _ _ hin4
      have hbuf2len : (set_offset buf (3 + 4 * i0) buf.length ++ prim_bytes p v).length
          = buf.length + (prim_bytes p v).length := by
        simp [hWlen]
      obtain ⟨B, mask2, heq, hBlen, hslots, hpay, hpres1, hpres2⟩ :=
        ih es' (i0 + 1) (set_offset buf (3 + 4 * i0) buf.length ++ prim_bytes p v)
          (mask.set f.offset_index true) structs
          (by simp at hn ⊢; omega) hclean2 hcanon2
          (fun e he => hlook e (List.mem_cons_of_mem _ he))
          (by omega) (by omega)
      refine ⟨B, mask2, ?_, ?_, ?_, ?_, ?_, ?_⟩
      · rw [encode_fields_cons_prim f fs' obj buf mask structs p v hty hv hconf, hpos]
        exact heq
      · omega
      · refine ⟨?_, ?_⟩
        · have hp1 := hpres1 (3 + 4 * i0) 4 (by omega)
          have hg : get_offset B (3 + 4 * i0)
              = get_offset (set_offset buf (3 + 4 * i0) buf.length ++ prim_bytes p v)
                  (3 + 4 * i0) := by
            rw [get_offset, get_offset, hp1]
          rw [hg, get_offset, readSlice_append_right _ _ _ _ (by rw [hWlen]; omega),
            ← get_offset, get_offset_set_offset_self buf _ _ hin4,
            Nat.mod_eq_of_lt hblt]
        · rw [hfb]
          have : buf.length + (prim_bytes p v).length
              = (set_offset buf (3 + 4 * i0) buf.length ++ prim_bytes p v).length := by
            omega
          rw [this]
          exact hslots
      · refine ⟨?_, ?_⟩
        · rw [hfb]
          have hp2 := hpres2 buf.length (prim_bytes p v).length (by omega) (by omega)
          rw [hp2]
          have hself := readSlice_append_self (set_offset buf (3 + 4 * i0) buf.length)
            (prim_bytes p v)
          rw [hWlen] at hself
          exact hself
        · rw [hfb]
          have : buf.length + (prim_bytes p v).length
              = (set_offset buf (3 + 4 * i0) buf.length ++ prim_bytes p v).length := by
            omega
          rw [this]
          exact hpay
      · intro q len hq
        rw [hpres1 q len (by omega)]
        rw [readSlice_append_right _ _ _ _ (by rw [hWlen]; omega)]
        rw [set_offset]
        exact readSlice_writeSlice_before buf _ (3 + 4 * i0) q len (by omega) hq
      · intro q len hq1 hq2
        rw [hpres2 q len hq1 (by omega)]
        rw [readSlice_append_right _ _ _ _ (by rw [hWlen]; omega)]
        rw [set_offset]
        exact readSlice_writeSlice_after buf _ (3 + 4 * i0) q len
          (by rw [natToBeBytes_length]; omega) (by rw [natToBeBytes_length]; omega)

/-- `decode_value` inverts the encoding of a conforming value whose
payload lies at `[off, off + len)` with `get_end` landing at its end. -/
theorem decode_value_spec (p : PrimitiveFieldType) (v : Json) (B : List Nat)
    (opos off po : Nat) (hconf : conforms p v)
    (hoff7 : 7 ≤ off)
    (hbytes : readSlice B off (prim_bytes p v).length = prim_bytes p v)
    (hlenB : off + (prim_bytes p v).length ≤ B.length)
    (hend : get_end B opos po = off + (prim_bytes p v).length) :
    decode_value p B opos off po = .ok v := by
  cases p <;> cases v <;> simp [conforms] at hconf <;>
    simp only [prim_bytes] at hbytes hlenB hend <;> simp only [decode_value]
  · -- string
    rename_i s
    rw [if_neg (by omega)]
    rw [hend]
    have hsl : off + s.length - off = s.length := by omega
    rw [hsl, hbytes]
  · -- int64
    rename_i nv
    have hl8 : (intToBeBytes 8 nv).length = 8 := by
      rw [intToBeBytes, natToBeBytes_length]
    rw [hl8] at hbytes hlenB
    rw [if_neg (by omega), hbytes, beBytesToInt_intToBeBytes nv hconf.1 hconf.2]
  · -- uInt64
    rename_i nv
    have hl8 : (natToBeBytes 8 nv.toNat).length = 8 := natToBeBytes_length 8 _
    rw [hl8] at hbytes hlenB
    rw [if_neg (by omega), hbytes, beBytesToNat_natToBeBytes]
    have h256 : (256 : Nat) ^ 8 = 2 ^ 64 := by norm_num
    have hmod : nv.toNat % 256 ^ 8 = nv.toNat := by
      apply Nat.mod_eq_of_lt
      rw [h256]
      omega
    rw [hmod]
    have hback : ((nv.toNat : Nat) : Int) = nv := Int.toNat_of_nonneg hconf.1
    rw [hback]
  · -- bool
    rename_i b
    have hl1 : ([if b then (1 : Nat) else 0]).length = 1 := rfl
    rw [hl1] at hbytes hlenB
    rw [if_neg (by omega)]
    rw [readByte_of_readSlice B off _ hbytes]
    cases b <;> simp
  · -- dateTime
    rename_i nv
    have hl8 : (intToBeBytes 8 nv).length = 8 := by
      rw [intToBeBytes, natToBeBytes_length]
    rw [hl8] at hbytes hlenB
    rw [if_neg (by omega), hbytes, beBytesToInt_intToBeBytes nv hconf.1 hconf.2]

theorem payload_from_le (B : List Nat) :
    ∀ (l : List (Field × Json)) (cur : Nat), payload_from B cur l → cur ≤ B.length := by
  intro l
  induction l with
  | nil =>
    intro cur h
    exact le_of_eq h.symm
  | cons fv rest ih =>
    intro cur h
    obtain ⟨f, v⟩ := fv
    have := ih (cur + (field_bytes f v).length) h.2
    omega

/-- `decode_fields` inverts the encoder's layout: under an all-`true`
selection it returns exactly the encoded entries. -/
theorem decode_fields_spec (B : List Nat) (n : Nat) :
    ∀ (fs : List Field) (es : List (String × Json)) (i0 cur : Nat),
      i0 + fs.length = n →
      encodes_cleanly fs es →
      canonical_from i0 fs →
      3 + 4 * n ≤ cur →
      slots_from B i0 cur (fs.zip (es.map Prod.snd)) →
      payload_from B cur (fs.zip (es.map Prod.snd)) →
      decode_fields B (3 + 4 * n) (List.replicate (n + 1) true) fs i0 = .ok es := by
  intro fs
  induction fs with
  | nil =>
    intro es i0 cur hn hclean _ _ _ _
    cases es with
    | cons e es' => simp [encodes_cleanly] at hclean
    | nil => rw [decode_fields]
  | cons f fs' ih =>
    intro es i0 cur hn hclean hcanon hcur hslots hpay
    cases es with
    | nil => simp [encodes_cleanly] at hclean
    | cons e es' =>
      obtain ⟨nm, v⟩ := e
      obtain ⟨hname, ⟨p, hty, hconf⟩, hclean2⟩ := hclean
      obtain ⟨hpos, hcanon2⟩ := hcanon
      have hz : ((f :: fs').zip (((nm, v) :: es').map Prod.snd))
          = (f, v) :: fs'.zip (es'.map Prod.snd) := rfl
      rw [hz] at hslots hpay
      obtain ⟨hslot0, hslots2⟩ := hslots
      obtain ⟨hpay0, hpay2⟩ := hpay
      have hfb : field_bytes f v = prim_bytes p v := by simp only [field_bytes, hty]
      rw [hfb] at hslots2 hpay0 hpay2
      have hi0n : i0 < n := by simp at hn; omega
      have hbytespos := conforms_bytes_pos p v hconf
      have hcurlen : cur + (prim_bytes p v).length ≤ B.length :=
        payload_from_le B _ _ hpay2
      have hend : get_end B (3 + 4 * i0) (3 + 4 * n) = cur + (prim_bytes p v).length := by
        cases fs' with
        | nil =>
          cases es' with
          | cons e2 es'' => simp [encodes_cleanly] at hclean2
          | nil =>
            have hBlen : B.length = cur + (prim_bytes p v).length := hpay2
            rw [get_end_eq_from B i0 n hi0n]
            have hn1 : n - i0 - 1 = 0 := by simp at hn; omega
            rw [hn1, get_end_from]
            exact hBlen
        | cons f2 fs'' =>
          cases es' with
          | nil => simp [encodes_cleanly] at hclean2
          | cons e2 es'' =>
            obtain ⟨nm2, v2⟩ := e2
            have hz2 : ((f2 :: fs'').zip (((nm2, v2) :: es'').map Prod.snd))
                = (f2, v2) :: fs''.zip (es''.map Prod.snd) := rfl
            rw [hz2] at hslots2
            have hslot1 : get_offset B (3 + 4 * (i0 + 1))
                = cur + (prim_bytes p v).length := hslots2.1
            rw [get_end_eq_from B i0 n hi0n]
            have hfz := get_end_from_first_nonzero B 0 (i0 + 1) (n - i0 - 1)
              (by simp at hn; omega)
              (by simpa using hslot1 ▸ (by omega : cur + (prim_bytes p v).length ≠ 0))
              (fun i hi => absurd hi (by omega))
            simpa [hslot1] using hfz
      rw [decode_fields, getD_replicate_true (n + 1) (i0 + 1) (by omega)]
      rw [if_neg (by decide)]
      rw [hty, hpos]
      simp only [hslot0]
      rw [if_neg (show ¬(cur = 0) by omega)]
      rw [if_neg (show ¬(cur ≥ B.length) by omega)]
      rw [decode_value_spec p v B (3 + 4 * i0) cur (3 + 4 * n) hconf (by omega) hpay0
        hcurlen hend]
      rw [ih es' (i0 + 1) (cur + (prim_bytes p v).length) (by simp at hn ⊢; omega)
        hclean2 hcanon2 (by omega) hslots2 hpay2]
      rw [hname]

/-- `encode_document` on an object, with the lets unfolded. -/
theorem encode_document_obj (fields : List Field) (po : Nat)
    (entries : List (String × Json)) (structs : List InsertStruct) :
    encode_document fields po (Json.obj entries) structs
      = (match encode_fields fields entries
            (listResize (1 :: natToBeBytes 2 (po % 2 ^ 16)) po)
            (List.replicate (((fields.map Field.offset_index).max?).getD 0 + 1) false)
            structs with
         | .error e => .error e
         | .ok (buf, mask, structs2) =>
            if buf.length = (listResize (1 :: natToBeBytes 2 (po % 2 ^ 16)) po).length
                ∧ structs2.length = 0
            then .error .emptyObject else .ok (buf, mask, structs2)) := by
  rw [encode_document]

/-- **C1** (amended): round trip on the conforming fragment. For a model
of canonically-slotted primitive fields and an object binding every field,
in declaration order, to a conforming non-null value (in-range integers,
non-empty strings, integer epoch datetimes; floats and string datetimes
are the P1 carve-outs), encoding succeeds and decoding the buffer with
every field selected returns the object with the entry `("id", id)`
prepended — not the object itself, as the unamended P1 stated. -/
theorem decode_encode_roundtrip (fields : List Field) (entries : List (String × Json))
    (id : Nat)
    (hclean : encodes_cleanly fields entries)
    (hcanon : canonical_from 0 fields)
    (hne : fields ≠ [])
    (hlook : ∀ e ∈ entries, jGet entries e.1 = Option.some e.2)
    (hbudget : 3 + 4 * fields.length
        + total_bytes (fields.zip (entries.map Prod.snd)) < 2 ^ 32) :
    ∃ buf mask,
      encode_document fields (3 + 4 * fields.length) (Json.obj entries) []
        = .ok (buf, mask, [])
      ∧ decode_document ⟨id, buf, fields, 3 + 4 * fields.length,
          List.replicate (fields.length + 1) true, []⟩
        = .ok (Json.obj (("id", Json.num (id : Int)) :: entries)) := by
  have hflen : 0 < fields.length := List.length_pos.mpr hne
  have hbuf0len : (listResize (1 :: natToBeBytes 2 ((3 + 4 * fields.length) % 2 ^ 16))
      (3 + 4 * fields.length)).length = 3 + 4 * fields.length := listResize_length _ _
  have htotpos : 0 < total_bytes (fields.zip (entries.map Prod.snd)) := by
    cases fields with
    | nil => exact absurd rfl hne
    | cons f fs' =>
      cases entries with
      | nil => simp [encodes_cleanly] at hclean
      | cons e es' =>
        obtain ⟨nm, v⟩ := e
        obtain ⟨hname, ⟨p, hty, hconf⟩, _⟩ := hclean
        have hz : ((f :: fs').zip (((nm, v) :: es').map Prod.snd))
            = (f, v) :: fs'.zip (es'.map Prod.snd) := rfl
        have hfb : field_bytes f v = prim_bytes p v := by simp only [field_bytes, hty]
        have hpos := conforms_bytes_pos p v hconf
        rw [hz]
        simp only [total_bytes, hfb]
        omega
  obtain ⟨B, mask2, heq, hBlen, hslots, hpay, hpres1, hpres2⟩ :=
    encode_fields_spec fields.length entries fields entries 0
      (listResize (1 :: natToBeBytes 2 ((3 + 4 * fields.length) % 2 ^ 16))
        (3 + 4 * fields.length))
      (List.replicate (((fields.map Field.offset_index).max?).getD 0 + 1) false) []
      (by omega) hclean hcanon (fun e he => hlook e he)
      (by omega) (by rw [hbuf0len]; omega)
  refine ⟨B, mask2, ?_, ?_⟩
  · rw [encode_document_obj, heq]
    have hcon : ¬(B.length
        = (listResize (1 :: natToBeBytes 2 ((3 + 4 * fields.length) % 2 ^ 16))
            (3 + 4 * fields.length)).length ∧ ([] : List InsertStruct).length = 0) := by
      rintro ⟨h1, _⟩
      omega
    simp only [if_neg hcon]
  · -- header bytes of the encoded buffer
    have hhd : ∀ q len, q + len ≤ 3 →
        readSlice B q len
          = readSlice (listResize (1 :: natToBeBytes 2 ((3 + 4 * fields.length) % 2 ^ 16))
              (3 + 4 * fields.length)) q len := by
      intro q len hql
      exact hpres1 q len (by omega)
    have hres : listResize (1 :: natToBeBytes 2 ((3 + 4 * fields.length) % 2 ^ 16))
        (3 + 4 * fields.length)
        = (1 :: natToBeBytes 2 ((3 + 4 * fields.length) % 2 ^ 16))
          ++ List.replicate ((3 + 4 * fields.length)
              - (1 :: natToBeBytes 2 ((3 + 4 * fields.length) % 2 ^ 16)).length) 0 := by
      rw [listResize, if_neg (by rw [List.length_cons, natToBeBytes_length]; omega)]
    have hrb : readByte B 0 = 1 := by
      apply readByte_of_readSlice
      rw [hhd 0 1 (by omega), hres]
      simp [readSlice]
    have hpo2 : readSlice B 1 2 = natToBeBytes 2 ((3 + 4 * fields.length) % 2 ^ 16) := by
      rw [hhd 1 2 (by omega), hres, readSlice]
      rw [List.drop_append_of_le_length (by simp)]
      rw [List.take_append_of_le_length (by simp [natToBeBytes_length])]
      simp [natToBeBytes_length]
    simp only [decode_document]
    rw [if_neg (show ¬(B.length < 3) by omega)]
    rw [hrb]
    rw [if_neg (by simp)]
    rw [hpo2, beBytesToNat_natToBeBytes]
    rw [if_neg (show ¬((3 + 4 * fields.length) % 2 ^ 16 % 256 ^ 2
        ≠ (3 + 4 * fields.length) % 2 ^ 16) by
      rw [show (256 : Nat) ^ 2 = 2 ^ 16 by norm_num]
      have hlt : (3 + 4 * fields.length) % 2 ^ 16 < 2 ^ 16 := Nat.mod_lt _ (by norm_num)
      simp [Nat.mod_eq_of_lt hlt])]
    rw [if_neg (show ¬(B.length < 3 + 4 * fields.length) by omega)]
    rw [getD_replicate_true (fields.length + 1) 0 (by omega)]
    rw [decode_fields_spec B fields.length fields entries 0 (3 + 4 * fields.length)
      (by omega) hclean hcanon le_rfl (by rw [← hbuf0len]; exact hslots)
      (by rw [← hbuf0len]; exact hpay)]
    simp [decode_includes]

/-- **C1** (counterexample): the round trip `decode(encode v) = v` of P1
fails as stated. (a) Decoding always injects the `id` key, so the result
differs from `v` even for `\x7bname:"Bob"\x7d`; (b) for the conforming
object `\x7bage:5, name:""\x7d` the trailing empty string is stored with
offset = buffer length, and the decoder's `offset >= len` guard rejects
the whole buffer with `OffsetOutOfRange`, so decode does not return at
all. -/
theorem decode_encode_roundtrip_fails :
    encode_document userFields 15 (Json.obj [("name", Json.str [66, 111, 98])]) []
        = .ok ([1, 0, 15, 0, 0, 0, 15, 0, 0, 0, 0, 0, 0, 0, 0, 66, 111, 98],
               [true, false, false], [])
    ∧ decode_document ⟨7, [1, 0, 15, 0, 0, 0, 15, 0, 0, 0, 0, 0, 0, 0, 0, 66, 111, 98],
          userFields, 15, [true, true, true, true], []⟩
        = .ok (Json.obj [("id", Json.num 7), ("name", Json.str [66, 111, 98]),
            ("surname", Json.null), ("age", Json.null)])
    ∧ Json.obj [("id", Json.num 7), ("name", Json.str [66, 111, 98]),
          ("surname", Json.null), ("age", Json.null)]
        ≠ Json.obj [("name", Json.str [66, 111, 98])]
    ∧ encode_document c1_fields 11
          (Json.obj [("age", Json.num 5), ("name", Json.str [])]) []
        = .ok ([1, 0, 11, 0, 0, 0, 11, 0, 0, 0, 19, 0, 0, 0, 0, 0, 0, 0, 5],
               [true, true], [])
    ∧ decode_document ⟨3, [1, 0, 11, 0, 0, 0, 11, 0, 0, 0, 19, 0, 0, 0, 0, 0, 0, 0, 5],
          c1_fields, 11, [true, true, true], []⟩
        = .error .offsetOutOfRange := by
  refine ⟨?_, by rfl, ?_, ?_, by rfl⟩
  · simp [userFields, encode_document, encode_fields, encode_value, jGet, listResize,
      natToBeBytes, writeSlice, readSlice, Json.isNull, Field.name, Field.ty,
      Field.offset_index, Field.offset_pos, intToBeBytes]
  · intro h
    injection h with h1
    simp at h1
  · simp [c1_fields, encode_document, encode_fields, encode_value, jGet, listResize,
      natToBeBytes, writeSlice, readSlice, Json.isNull, Field.name, Field.ty,
      Field.offset_index, Field.offset_pos, intToBeBytes]
    try decide

/-- Witness for the amended C1: the `User` model with the fully-populated
conforming object `\x7bname:"B", surname:"S", age:5\x7d` satisfies every
hypothesis, and the round trip returns the object with `("id", 7)`
prepended. -/
theorem decode_encode_roundtrip_witness :
    (encodes_cleanly userFields
        [("name", Json.str [66]), ("surname", Json.str [83]), ("age", Json.num 5)]
      ∧ canonical_from 0 userFields
      ∧ userFields ≠ []
      ∧ (∀ e ∈ [("name", Json.str [66]), ("surname", Json.str [83]), ("age", Json.num 5)],
          jGet [("name", Json.str [66]), ("surname", Json.str [83]), ("age", Json.num 5)]
              e.1 = Option.some e.2)
      ∧ 3 + 4 * userFields.length
          + total_bytes (userFields.zip
              (([("name", Json.str [66]), ("surname", Json.str [83]),
                 ("age", Json.num 5)]).map Prod.snd)) < 2 ^ 32)
    ∧ (∃ buf mask,
        encode_document userFields (3 + 4 * userFields.length)
            (Json.obj [("name", Json.str [66]), ("surname", Json.str [83]),
              ("age", Json.num 5)]) []
          = .ok (buf, mask, [])
        ∧ decode_document ⟨7, buf, userFields, 3 + 4 * userFields.length,
            List.replicate (userFields.length + 1) true, []⟩
          = .ok (Json.obj (("id", Json.num (7 : Int))
              :: [("name", Json.str [66]), ("surname", Json.str [83]),
                  ("age", Json.num 5)]))) := by
  have h1 : encodes_cleanly userFields
      [("name", Json.str [66]), ("surname", Json.str [83]), ("age", Json.num 5)] :=
    ⟨rfl, ⟨.string, rfl, (by decide : ([66] : List Nat) ≠ [])⟩,
     rfl, ⟨.string, rfl, (by decide : ([83] : List Nat) ≠ [])⟩,
     rfl, ⟨.int64, rfl, (by norm_num : -(2 ^ 63) ≤ (5 : Int) ∧ (5 : Int) < 2 ^ 63)⟩,
     trivial⟩
  have h2 : canonical_from 0 userFields := ⟨rfl, rfl, rfl, trivial⟩
  have h3 : userFields ≠ [] := by simp [userFields]
  have h4 : ∀ e ∈ [("name", Json.str [66]), ("surname", Json.str [83]),
      ("age", Json.num 5)],
      jGet [("name", Json.str [66]), ("surname", Json.str [83]), ("age", Json.num 5)]
          e.1 = Option.some e.2 := by
    intro e he
    simp only [List.mem_cons, List.not_mem_nil, or_false] at he
    rcases he with rfl | rfl | rfl <;> rfl
  have h5 : 3 + 4 * userFields.length
      + total_bytes (userFields.zip
          (([("name", Json.str [66]), ("surname", Json.str [83]),
             ("age", Json.num 5)]).map Prod.snd)) < 2 ^ 32 := by decide
  exact ⟨⟨h1, h2, h3, h4, h5⟩,
    decode_encode_roundtrip userFields
      [("name", Json.str [66]), ("surname", Json.str [83]), ("age", Json.num 5)]
      7 h1 h2 h3 h4 h5⟩

end Marci
